import Mathlib

/-!
# perf2db: the perfdata line parser of `main.go`

A shallow embedding of the parsing part of `main.go`:

* `getPerfData` with its three loops (tokenizer, multi-word rejoiner, field
  dispatcher),
* `parsePerfValues`, the metric-list parser,
* `parseInt`,
* `fixInfluxReservedIdentifier`, the reserved-word sanitizer.

Go strings are embedded as lists of characters (`Str`).  A Go function that
returns `(value, error)` is embedded as a function returning the pair of the
value and an optional error text, `none` standing for a `nil` error.  Logging
(`log.Errorf`) has no effect on the returned values and is not represented.
-/

namespace Perf2db

/-- Go strings, as lists of characters. -/
abbrev Str := List Char

/-! ## Library functions used by `main.go` -/

/-- Go `unicode.IsSpace`: the Latin-1 white space characters and the other
code points with the Unicode White_Space property. -/
def isSpace (c : Char) : Bool :=
  let n := c.toNat
  (9 ≤ n && n ≤ 13) || n == 32 || n == 0x85 || n == 0xA0 || n == 0x1680 ||
  (0x2000 ≤ n && n ≤ 0x200A) || n == 0x2028 || n == 0x2029 || n == 0x202F ||
  n == 0x205F || n == 0x3000

/-- The scan of Go `strings.Fields`: `cur` holds, reversed, the characters of
the field being read. -/
def fieldsLoop : Str → Str → List Str
  | [], cur => if cur.isEmpty then [] else [cur.reverse]
  | c :: cs, cur =>
    if isSpace c then
      if cur.isEmpty then fieldsLoop cs [] else cur.reverse :: fieldsLoop cs []
    else fieldsLoop cs (c :: cur)

/-- Go `strings.Fields`: the maximal runs of characters that are not white
space. -/
def fields (s : Str) : List Str := fieldsLoop s []

/-- The scan of Go `strings.Split(s, " ")`: `cur` holds, reversed, the
characters of the piece being read. -/
def splitLoop : Str → Str → List Str
  | [], cur => [cur.reverse]
  | c :: cs, cur =>
    if c = ' ' then cur.reverse :: splitLoop cs [] else splitLoop cs (c :: cur)

/-- Go `strings.Split(s, " ")`: the pieces between single spaces, empty pieces
included. -/
def splitSpace (s : Str) : List Str := splitLoop s []

/-- Go `strings.HasSuffix`. -/
def hasSuffix (s suffix : Str) : Bool := suffix.reverse.isPrefixOf s.reverse

/-- ASCII decimal digit, the class `[0-9]`. -/
def isDigit (c : Char) : Bool := '0'.toNat ≤ c.toNat && c.toNat ≤ '9'.toNat

/-- ASCII upper-case letter, the class `[A-Z]`. -/
def isUpper (c : Char) : Bool := 'A'.toNat ≤ c.toNat && c.toNat ≤ 'Z'.toNat

/-- ASCII lower-case letter, the class `[a-z]`. -/
def isLower (c : Char) : Bool := 'a'.toNat ≤ c.toNat && c.toNat ≤ 'z'.toNat

/-- Reads a run of decimal digits into a number; `none` when a character is not
a digit. -/
def parseDigits : Str → Nat → Option Nat
  | [], acc => some acc
  | c :: cs, acc =>
    if isDigit c then parseDigits cs (10 * acc + (c.toNat - '0'.toNat)) else none

/-- Go `strconv.Atoi` for a 64-bit `int`: an optional sign, one or more
decimal digits, and the value within the range of `int`; `none` stands for a
non-nil error (syntax or range). -/
def atoi (s : Str) : Option Int :=
  let neg := s.head? == some '-'
  let ds := if s.head? == some '-' || s.head? == some '+' then s.tail else s
  if ds.isEmpty then none
  else
    match parseDigits ds 0 with
    | none => none
    | some n =>
      if neg then (if n ≤ 2 ^ 63 then some (-(n : Int)) else none)
      else (if n < 2 ^ 63 then some (n : Int) else none)

/-- The body of `parseInt`: `(i, nil)` when `strconv.Atoi` accepts the raw
value, `(0, error)` naming the marker and the raw value otherwise. -/
def parseInt (token rawValue : Str) : Int × Option Str :=
  match atoi rawValue with
  | some i => (i, none)
  | none =>
    (0, some ("error parsing integer for token: (".toList ++ token ++ "): (".toList
      ++ rawValue ++ ")".toList))

/-! ## The records -/

/-- The Go struct `perfDataValue`. -/
structure perfDataValue where
  name : Str
  value : Str
  deriving DecidableEq, Repr

/-- The Go struct `perfData`, with the embedded structs `hostPerfData` and
`servicePerfData` flattened into it.  `timeT` is `none` for the zero
`time.Time` and `some s` for `time.Unix(s, 0)`. -/
structure perfData where
  hostCheckComand : Str := []
  hostState : Int := 0
  hostStateType : Int := 0
  serviceDesc : Str := []
  serviceCheckCommand : Str := []
  serviceState : Int := 0
  serviceType : Int := 0
  perfDataValues : List perfDataValue := []
  dataType : Str := []
  timeT : Option Int := none
  hostName : Str := []
  deriving DecidableEq, Repr

/-! ## `parsePerfValues` -/

/-- The class `[A-Za-z0-9-_]` of the metric name. -/
def isNameChar (c : Char) : Bool :=
  isUpper c || isLower c || isDigit c || c == '-' || c == '_'

/-- The class `[.0-9]` of the tail of the metric value. -/
def isNumChar (c : Char) : Bool := c == '.' || isDigit c

/-- The class `[A-Z-a-z%]` of the unit suffix. -/
def isUnitChar (c : Char) : Bool := isUpper c || c == '-' || isLower c || c == '%'

/-- The first match of the regular expression
`^([A-Za-z0-9-_]+)=(-?[0-9][.0-9]*)[A-Z-a-z%]*;*` in `v`, as the pair of its
two groups.  The expression is anchored at the start only.  The greedy name
group is the longest run of name characters (a shorter one would be followed
by a name character, not by `=`); after `=` comes an optional `-` and a digit;
the value group then extends over the longest run of `[.0-9]`.  The unit and
`;` parts match the empty string and bind no group. -/
def perfValueMatch (v : Str) : Option (Str × Str) :=
  let name := v.takeWhile isNameChar
  if name.isEmpty then none
  else
    match v.dropWhile isNameChar with
    | '=' :: r =>
      let sign : Str := if r.head? == some '-' then ['-'] else []
      let r' := if r.head? == some '-' then r.tail else r
      match r' with
      | d :: t => if isDigit d then some (name, sign ++ d :: t.takeWhile isNumChar) else none
      | [] => none
    | _ => none

/-- The loop of `parsePerfValues` over the split entries; `r` is the slice
built so far.  An entry that does not match returns `(nil, error)`. -/
def parsePerfValuesLoop (token : Str) : List Str → List perfDataValue →
    List perfDataValue × Option Str
  | [], r => (r, none)
  | v :: vs, r =>
    match perfValueMatch v with
    | some (name, value) => parsePerfValuesLoop token vs (r ++ [⟨name, value⟩])
    | none =>
      ([], some ("error parsing perfdata value for token: ".toList ++ token ++ ", ".toList ++ v))

/-- The Go function `parsePerfValues`. -/
def parsePerfValues (token rawValue : Str) : List perfDataValue × Option Str :=
  parsePerfValuesLoop token (splitSpace rawValue) []

/-! ## `getPerfData`: the tokenizer loop -/

/-- A match of `([A-Z]+::)(.+)` that starts at the head of `s`: the longest run
of upper-case letters, non-empty, then `::`, then the longest non-empty run of
characters other than a newline. -/
def fieldNameMatchHere (s : Str) : Option (Str × Str) :=
  let u := s.takeWhile isUpper
  if u.isEmpty then none
  else
    match s.dropWhile isUpper with
    | ':' :: ':' :: r =>
      let v := r.takeWhile (fun c => c != '\n')
      if v.isEmpty then none else some (u ++ [':', ':'], v)
    | _ => none

/-- The first (leftmost) match of the unanchored expression `([A-Z]+::)(.+)`
in `s`, as the pair of its two groups. -/
def fieldNameMatch : Str → Option (Str × Str)
  | [] => none
  | c :: cs =>
    match fieldNameMatchHere (c :: cs) with
    | some m => some m
    | none => fieldNameMatch cs

/-- The body of the first loop: what one token contributes to `newTokens`. -/
def splitToken (token : Str) : List Str :=
  match fieldNameMatch token with
  | some (marker, rest) => [marker, rest]
  | none => [token]

/-- The first loop of `getPerfData`, applied to `strings.Fields(line)`. -/
def tokenize (line : Str) : List Str := (fields line).flatMap splitToken

/-! ## `getPerfData`: the rejoiner loop -/

/-- The marker suffix `::`. -/
def colons : Str := "::".toList

/-- The variables of the second loop: the join buffer, the five flags, and the
tokens appended to `newTokens` so far. -/
structure joinState where
  tokenJoinBuffer : Str := []
  serviceDescParse : Bool := false
  servicePerfDataParse : Bool := false
  serviceCheckCommandParse : Bool := false
  hostPerfDataParse : Bool := false
  hostCheckCommandParse : Bool := false
  newTokens : List Str := []
  deriving DecidableEq, Repr

/-- The disjunction of the five flags, as tested by the second loop. -/
def joinState.inField (s : joinState) : Bool :=
  s.serviceDescParse || s.servicePerfDataParse || s.serviceCheckCommandParse ||
    s.hostPerfDataParse || s.hostCheckCommandParse

/-- The `if` chain that closes the body of the second loop: the flag of a
triggering marker is raised. -/
def raiseFlag (s : joinState) (token : Str) : joinState :=
  if token = "SERVICEDESC::".toList then { s with serviceDescParse := true }
  else if token = "SERVICEPERFDATA::".toList then { s with servicePerfDataParse := true }
  else if token = "SERVICECHECKCOMMAND::".toList then { s with serviceCheckCommandParse := true }
  else if token = "HOSTPERFDATA::".toList then { s with hostPerfDataParse := true }
  else if token = "HOSTCHECKCOMMAND::".toList then { s with hostCheckCommandParse := true }
  else s

/-- One pass through the body of the second loop. -/
def rejoinStep (s : joinState) (token : Str) : joinState :=
  let s' : joinState :=
    if s.inField && !hasSuffix token colons then
      if s.tokenJoinBuffer = [] then { s with tokenJoinBuffer := token }
      else { s with tokenJoinBuffer := s.tokenJoinBuffer ++ " ".toList ++ token }
    else if s.inField && hasSuffix token colons then
      { tokenJoinBuffer := []
        serviceDescParse := false
        servicePerfDataParse := false
        serviceCheckCommandParse := false
        hostPerfDataParse := false
        hostCheckCommandParse := false
        newTokens := s.newTokens ++ [s.tokenJoinBuffer] ++ [token] }
    else { s with newTokens := s.newTokens ++ [token] }
  raiseFlag s' token

/-- The second loop of `getPerfData`, from the state `s`. -/
def rejoinLoop : List Str → joinState → joinState
  | [], s => s
  | token :: rest, s => rejoinLoop rest (rejoinStep s token)

/-- The second loop of `getPerfData`: the tokens it leaves in `newTokens`.
The join buffer is not read after the loop. -/
def rejoin (tokens : List Str) : List Str := (rejoinLoop tokens {}).newTokens

/-! ## `getPerfData`: the dispatcher loop -/

/-- The variables of the third loop. -/
structure dispatchState where
  prevToken : Str := []
  skipIdent : Bool := false
  perf : perfData := {}
  deriving DecidableEq, Repr

/-- The outcome of one pass through the body of the third loop: the loop goes
on with a new state, or `getPerfData` returns the record with an error. -/
inductive stepResult where
  | next (s : dispatchState)
  | fail (perf : perfData) (err : Str)
  deriving DecidableEq, Repr

/-- The assignment of an integer field: `return perf, err` when `parseInt`
fails, the assignment `set i` followed by `prevToken = token` otherwise. -/
def intField (s : dispatchState) (token : Str) (set : perfData → Int → perfData) : stepResult :=
  match parseInt s.prevToken token with
  | (i, none) => .next { s with prevToken := token, perf := set s.perf i }
  | (_, some err) => .fail s.perf err

/-- The `switch prevToken` of the third loop and the assignment
`prevToken = token` that follows it; `s` is the state after the `skipIdent`
test and update. -/
def dispatchSwitch (s : dispatchState) (token : Str) : stepResult :=
  let p := s.prevToken
  if p = [] then .next { s with prevToken := token }
  else if p = "DATATYPE::".toList then
    .next { s with prevToken := token, perf := { s.perf with dataType := token } }
  else if p = "TIMET::".toList then
    match parseInt p token with
    | (_, some _) => .next s
    | (i, none) =>
      .next { s with prevToken := token, perf := { s.perf with serviceType := i, timeT := some i } }
  else if p = "HOSTNAME::".toList then
    .next { s with prevToken := token, perf := { s.perf with hostName := token } }
  else if p = "SERVICEDESC::".toList then
    .next { s with prevToken := token, perf := { s.perf with serviceDesc := token } }
  else if p = "SERVICEPERFDATA::".toList ∨ p = "HOSTPERFDATA::".toList then
    match parsePerfValues p token with
    | (_, some err) => .fail s.perf err
    | (values, none) =>
      .next { s with prevToken := token, perf := { s.perf with perfDataValues := values } }
  else if p = "SERVICECHECKCOMMAND::".toList then
    .next { s with prevToken := token, perf := { s.perf with serviceCheckCommand := token } }
  else if p = "SERVICESTATE::".toList then
    intField s token (fun perf i => { perf with serviceState := i })
  else if p = "SERVICESTATETYPE::".toList then
    intField s token (fun perf i => { perf with serviceType := i })
  else if p = "HOSTCHECKCOMMAND::".toList then
    .next { s with prevToken := token, perf := { s.perf with hostCheckComand := token } }
  else if p = "HOSTSTATE::".toList then
    intField s token (fun perf i => { perf with hostState := i })
  else if p = "HOSTSTATETYPE::".toList then
    intField s token (fun perf i => { perf with hostStateType := i })
  else .fail s.perf ("unimplemented perf data field name: ".toList ++ p)

/-- One pass through the body of the third loop. -/
def dispatchStep (s : dispatchState) (token : Str) : stepResult :=
  if s.skipIdent then .next { s with prevToken := token, skipIdent := false }
  else
    dispatchSwitch
      (if hasSuffix s.prevToken colons then { s with skipIdent := true } else s) token

/-- The third loop of `getPerfData`, from the state `s`, and the final
`return perf, nil`. -/
def dispatchLoop : List Str → dispatchState → perfData × Option Str
  | [], s => (s.perf, none)
  | token :: rest, s =>
    match dispatchStep s token with
    | .next s' => dispatchLoop rest s'
    | .fail perf err => (perf, some err)

/-- The third loop of `getPerfData` from its initial state. -/
def dispatch (tokens : List Str) : perfData × Option Str := dispatchLoop tokens {}

/-- The Go function `getPerfData`. -/
def getPerfData (line : Str) : perfData × Option Str :=
  dispatch (rejoin (tokenize line))

/-! ## Vocabulary of the statements -/

/-- The words `w₁ … wₙ` joined by single spaces. -/
def spaceJoin : List Str → Str
  | [] => []
  | w :: ws => w ++ ws.flatMap (fun x => ' ' :: x)

/-- A non-empty word without white space (`unicode.IsSpace`). -/
def isWord (w : Str) : Prop := w ≠ [] ∧ ∀ c ∈ w, isSpace c = false

/-- The word `w` contains one or more upper-case letters followed by `::` and
a further character. -/
def hasMarkerInside (w : Str) : Prop :=
  ∃ pre u post : Str, w = pre ++ u ++ colons ++ post ∧ u ≠ [] ∧ (∀ c ∈ u, isUpper c = true) ∧
    post ≠ []

/-- A word of a multi-word value: non-empty, without white space, not ending in
`::`, and without upper-case letters followed by `::` and a further
character. -/
def plainWord (w : Str) : Prop :=
  isWord w ∧ hasSuffix w colons = false ∧ ¬ hasMarkerInside w

/-- A field marker: one or more upper-case letters followed by `::`. -/
def isMarker (m : Str) : Prop :=
  ∃ u : Str, m = u ++ colons ∧ u ≠ [] ∧ ∀ c ∈ u, isUpper c = true

/-- The twelve markers that the dispatcher recognises. -/
def recognisedMarkers : List Str :=
  ["DATATYPE::".toList, "TIMET::".toList, "HOSTNAME::".toList, "SERVICEDESC::".toList,
   "SERVICEPERFDATA::".toList, "SERVICECHECKCOMMAND::".toList, "SERVICESTATE::".toList,
   "SERVICESTATETYPE::".toList, "HOSTPERFDATA::".toList, "HOSTCHECKCOMMAND::".toList,
   "HOSTSTATE::".toList, "HOSTSTATETYPE::".toList]

/-- The five markers that start a multi-word value in the rejoiner. -/
def triggerMarkers : List Str :=
  ["SERVICEDESC::".toList, "SERVICEPERFDATA::".toList, "SERVICECHECKCOMMAND::".toList,
   "HOSTPERFDATA::".toList, "HOSTCHECKCOMMAND::".toList]

/-- A base-10 integer: an optional sign followed by one or more decimal
digits. -/
def isDecimalInt (w : Str) : Bool :=
  let ds := if w.head? == some '-' || w.head? == some '+' then w.tail else w
  !ds.isEmpty && ds.all isDigit

/-! ## Auxiliary form of the rejoiner -/

/-- The update of the join buffer in the first branch of the second loop. -/
def joinBuf (buf token : Str) : Str := if buf = [] then token else buf ++ ' ' :: token

/-- The tokens that the second loop appends to `newTokens`, as a function of
the disjunction of the flags and of the buffer only (proved equal to
`rejoinLoop` in `rejoinLoop_newTokens`). -/
def rj : Bool → Str → List Str → List Str
  | _, _, [] => []
  | inField, buf, t :: ts =>
    if inField then
      if hasSuffix t colons then buf :: t :: rj (decide (t ∈ triggerMarkers)) [] ts
      else rj true (joinBuf buf t) ts
    else t :: rj (decide (t ∈ triggerMarkers)) buf ts

/-- The line of the end-to-end scenario. -/
def endToEndLine : Str :=
  ("DATATYPE::SERVICEPERFDATA TIMET::1617000000 HOSTNAME::web1 SERVICEDESC::Root Partition " ++
    "SERVICEPERFDATA::used=55% total=100% SERVICECHECKCOMMAND::check_disk").toList

/-- ASCII letter. -/
def isLetter (c : Char) : Bool := isUpper c || isLower c

/-- A metric entry `name=number[unit][;thresholds]` in its parts: the number
is an optional `-`, the digits `digits`, and, when `fraction` is `some f`, a
`.` followed by the digits `f`. -/
structure metricEntry where
  name : Str
  negative : Bool
  digits : Str
  fraction : Option Str
  unit : Str
  thresholds : List Str

/-- The fractional part of the number of a metric entry, as text. -/
def metricEntry.fractionText (e : metricEntry) : Str :=
  match e.fraction with
  | some f => '.' :: f
  | none => []

/-- The number of a metric entry, as text. -/
def metricEntry.number (e : metricEntry) : Str :=
  (if e.negative then ['-'] else []) ++ e.digits ++ e.fractionText

/-- The text of a metric entry. -/
def metricEntry.text (e : metricEntry) : Str :=
  e.name ++ '=' :: e.number ++ e.unit ++ e.thresholds.flatMap (fun t => ';' :: t)

/-- The parts of a metric entry have the stated form: the name is a non-empty
string of letters, digits, `-` and `_`; the number has one or more digits and
only digits after the `.`; the unit is made of letters and `%`; no threshold
segment contains a space. -/
def metricEntry.wellFormed (e : metricEntry) : Prop :=
  e.name ≠ [] ∧
  (∀ c ∈ e.name, isLetter c = true ∨ isDigit c = true ∨ c = '-' ∨ c = '_') ∧
  e.digits ≠ [] ∧ (∀ c ∈ e.digits, isDigit c = true) ∧
  (∀ c ∈ e.fraction.getD [], isDigit c = true) ∧
  (∀ c ∈ e.unit, isLetter c = true ∨ c = '%') ∧
  (∀ t ∈ e.thresholds, ' ' ∉ t)

/-- The entries of `used=10%;90;95 total=100%`. -/
def sampleEntries : List metricEntry :=
  [{ name := "used".toList, negative := false, digits := "10".toList, fraction := none,
     unit := "%".toList, thresholds := ["90".toList, "95".toList] },
   { name := "total".toList, negative := false, digits := "100".toList, fraction := none,
     unit := "%".toList, thresholds := [] }]

/-- The error text of `parsePerfValues` for the marker `token` and the entry
`v`. -/
def perfValueError (token v : Str) : Str :=
  "error parsing perfdata value for token: ".toList ++ token ++ ", ".toList ++ v

/-! ## `fixInfluxReservedIdentifier` -/

/-- The Unicode data behind Go `strings.EqualFold` and `strings.ToLower`
outside ASCII: `sameOrbit lo hi` tells whether iterating `unicode.SimpleFold`
from `lo` reaches `hi` (for `lo < hi`, `hi` not ASCII), and `lower` is
`unicode.ToLower` on the runes that are not ASCII. -/
structure caseTables where
  sameOrbit : Char → Char → Bool
  lower : Char → Char

/-- The comparison of one pair of runes in Go `strings.EqualFold`: equal runes,
or, with the smaller one first, an ASCII upper-case letter and its lower-case
form when both are ASCII, and the simple-folding orbit otherwise. -/
def foldEqRune (u : caseTables) (a b : Char) : Bool :=
  if a = b then true
  else
    let lo := if b.toNat < a.toNat then b else a
    let hi := if b.toNat < a.toNat then a else b
    if hi.toNat < 128 then isUpper lo && hi.toNat == lo.toNat + 32
    else u.sameOrbit lo hi

/-- Go `strings.EqualFold`: the two strings have the same number of runes and
the runes are pairwise equal under simple case folding. -/
def equalFold (u : caseTables) : Str → Str → Bool
  | [], [] => true
  | a :: s, b :: t => foldEqRune u a b && equalFold u s t
  | _, _ => false

/-- Go `unicode.ToLower`: an ASCII upper-case letter moves by 32, another ASCII
rune stays, a rune outside ASCII follows the Unicode table. -/
def toLowerRune (u : caseTables) (c : Char) : Char :=
  if c.toNat < 128 then (if isUpper c then Char.ofNat (c.toNat + 32) else c) else u.lower c

/-- Go `strings.ToLower`. -/
def toLower (u : caseTables) (s : Str) : Str := s.map (toLowerRune u)

/-- The slice `reserved` of `fixInfluxReservedIdentifier`. -/
def reserved : List Str :=
  (["ALL", "ALTER", "ANALYZE", "ANY", "AS", "ASC", "BEGIN", "BY", "CREATE",
    "CONTINUOUS", "DATABASE", "DATABASES", "DEFAULT", "DELETE", "DESC",
    "DESTINATIONS", "DIAGNOSTICS", "DISTINCT", "DROP", "DURATION", "END",
    "EVERY", "EXPLAIN", "FIELD", "FOR", "FROM", "GRANT", "GRANTS", "GROUP",
    "GROUPS", "IN", "INF", "INSERT", "INTO", "KEY", "KEYS", "KILL", "LIMIT",
    "SHOW", "MEASUREMENT", "MEASUREMENTS", "NAME", "OFFSET", "ON", "ORDER",
    "PASSWORD", "POLICY", "POLICIES", "PRIVILEGES", "QUERIES", "QUERY",
    "READ", "REPLICATION", "RESAMPLE", "RETENTION", "REVOKE", "SELECT",
    "SERIES", "SET", "SHARD", "SHARDS", "SLIMIT", "SOFFSET", "STATS",
    "SUBSCRIPTION", "SUBSCRIPTIONS", "TAG", "TO", "USER", "USERS",
    "VALUES", "WHERE", "WITH", "WRITE"] : List String).map String.toList

/-- The loop of `fixInfluxReservedIdentifier` over the reserved words, and the
final `return identifier`. -/
def fixLoop (u : caseTables) (identifier : Str) : List Str → Str
  | [] => identifier
  | i :: rest =>
    if equalFold u i identifier then toLower u identifier ++ "_".toList
    else fixLoop u identifier rest

/-- The Go function `fixInfluxReservedIdentifier`. -/
def fixInfluxReservedIdentifier (u : caseTables) (identifier : Str) : Str :=
  fixLoop u identifier reserved

/-! ## Lines made of marker/value pairs -/

/-- The error text of `parseInt` for the marker `token` and the raw value. -/
def intError (token rawValue : Str) : Str :=
  "error parsing integer for token: (".toList ++ token ++ "): (".toList ++ rawValue ++
    ")".toList

/-- The error text of the `default` case of the dispatcher. -/
def unimplementedError (marker : Str) : Str :=
  "unimplemented perf data field name: ".toList ++ marker

/-- A pair of a line: a marker, the first word of its value (written right
after the marker) and the further words of the value. -/
structure pair where
  marker : Str
  first : Str
  more : List Str

/-- The white-space separated pieces that a pair contributes to its line. -/
def pair.pieces (p : pair) : List Str := (p.marker ++ p.first) :: p.more

/-- The value of a pair: its words joined by single spaces. -/
def pair.value (p : pair) : Str := spaceJoin (p.first :: p.more)

/-- A well-formed pair of a recognised marker with a value valid for its
field: the words of the value are plain words; the value of `DATATYPE::`,
`HOSTNAME::` and of the integer fields is one word; the value of an integer
field is accepted by `strconv.Atoi`; every word of a performance-data value
matches the metric-entry pattern. -/
def pair.valid (p : pair) : Prop :=
  plainWord p.first ∧ (∀ w ∈ p.more, plainWord w) ∧
  ((p.marker ∈ ["DATATYPE::".toList, "HOSTNAME::".toList] ∧ p.more = []) ∨
   (p.marker ∈ ["TIMET::".toList, "SERVICESTATE::".toList, "SERVICESTATETYPE::".toList,
      "HOSTSTATE::".toList, "HOSTSTATETYPE::".toList] ∧ p.more = [] ∧ atoi p.first ≠ none) ∨
   (p.marker ∈ ["SERVICEDESC::".toList, "SERVICECHECKCOMMAND::".toList,
      "HOSTCHECKCOMMAND::".toList]) ∨
   (p.marker ∈ ["SERVICEPERFDATA::".toList, "HOSTPERFDATA::".toList] ∧
      ∀ w ∈ p.first :: p.more, perfValueMatch w ≠ none))

/-- The record after the dispatcher has read the marker and the value of the
pair `p`, from the record `perf`. -/
def applyPair (perf : perfData) (p : pair) : perfData :=
  match dispatchSwitch ⟨p.marker, true, perf⟩ p.value with
  | .next s => s.perf
  | .fail q _ => q

/-- The pair `HOSTNAME::web1`. -/
def hostNamePair : pair := ⟨"HOSTNAME::".toList, "web1".toList, []⟩

/-! ## Vocabulary of the statements on metric entries -/

/-- A character of a metric name: a letter, a digit, `-` or `_`. -/
def isIdentChar (c : Char) : Bool := isLetter c || isDigit c || c == '-' || c == '_'

/-- The text begins with a digit, or with `-` followed by a digit. -/
def beginsNumber (rest : Str) : Bool :=
  rest.head?.any isDigit || (rest.head? == some '-' && rest.tail.head?.any isDigit)

/-- The optional `-` at the head of the text, followed by the longest run of
digits and dots after it. -/
def numberPrefix (rest : Str) : Str :=
  if rest.head? == some '-' then '-' :: rest.tail.takeWhile isNumChar
  else rest.takeWhile isNumChar

/-- The text is an optional `-`, a digit, and then digits and dots only. -/
def isDottedNumber (v : Str) : Bool :=
  let r := if v.head? == some '-' then v.tail else v
  r.head?.any isDigit && r.all isNumChar

/-- The text is a signed decimal number: an optional `-`, one or more digits,
and optionally a single `.` followed by digits. -/
def isSignedDecimal (v : Str) : Bool :=
  let r := if v.head? == some '-' then v.tail else v
  let ds := r.takeWhile isDigit
  let rest := r.dropWhile isDigit
  !ds.isEmpty && (rest.isEmpty || (rest.head? == some '.' && rest.tail.all isDigit))

/-- The two performance-data markers. -/
def perfMarkers : List Str := ["SERVICEPERFDATA::".toList, "HOSTPERFDATA::".toList]

/-! # Theorems -/

theorem spaceJoin_eq_intercalate (ws : List Str) : spaceJoin ws = List.intercalate [' '] ws := by
  cases ws with
  | nil => rfl
  | cons w ws =>
    induction ws generalizing w with
    | nil => simp [spaceJoin, List.intercalate]
    | cons v vs ih =>
      have := ih v
      simp [spaceJoin, List.intercalate] at this ⊢
      simp [this]

theorem spaceJoin_cons_cons (w v : Str) (ws : List Str) :
    spaceJoin (w :: v :: ws) = w ++ ' ' :: spaceJoin (v :: ws) := by
  simp [spaceJoin]

theorem fieldsLoop_run (w rest cur : Str) (hw : ∀ c ∈ w, isSpace c = false) :
    fieldsLoop (w ++ rest) cur = fieldsLoop rest (w.reverse ++ cur) := by
  induction w generalizing cur with
  | nil => rfl
  | cons c cs ih =>
    have hc : isSpace c = false := hw c (List.mem_cons_self _ _)
    have h := ih (c :: cur) (fun d hd => hw d (List.mem_cons_of_mem _ hd))
    simpa [fieldsLoop, hc] using h

theorem fields_word_space (w rest : Str) (hw : isWord w) :
    fields (w ++ ' ' :: rest) = w :: fields rest := by
  unfold fields
  rw [fieldsLoop_run w _ [] hw.2]
  have : isSpace ' ' = true := by decide
  have h2 : (w.reverse ++ []).isEmpty = false := by
    cases w with
    | nil => exact absurd rfl hw.1
    | cons c cs => simp
  simp [fieldsLoop, this, hw.1]

theorem fields_word (w : Str) (hw : isWord w) : fields w = [w] := by
  unfold fields
  have := fieldsLoop_run w [] [] hw.2
  rw [List.append_nil] at this
  rw [this]
  have h2 : (w.reverse ++ []).isEmpty = false := by
    cases w with
    | nil => exact absurd rfl hw.1
    | cons c cs => simp
  simp [fieldsLoop, hw.1]

theorem fields_spaceJoin (ws : List Str) (h : ∀ w ∈ ws, isWord w) : fields (spaceJoin ws) = ws := by
  cases ws with
  | nil => rfl
  | cons w ws =>
    induction ws generalizing w with
    | nil => simpa [spaceJoin] using fields_word w (h w (by simp))
    | cons v vs ih =>
      rw [spaceJoin_cons_cons, fields_word_space _ _ (h w (by simp))]
      rw [ih v (fun x hx => h x (List.mem_cons_of_mem _ hx))]

theorem takeWhile_run {p : Char → Bool} (u rest : Str) (hu : ∀ c ∈ u, p c = true)
    (hr : rest.head?.all (fun c => !p c) = true) : (u ++ rest).takeWhile p = u := by
  rw [List.takeWhile_append_of_pos hu]
  cases rest with
  | nil => simp
  | cons c cs =>
    simp at hr
    simp [List.takeWhile_cons, hr]

theorem dropWhile_run {p : Char → Bool} (u rest : Str) (hu : ∀ c ∈ u, p c = true)
    (hr : rest.head?.all (fun c => !p c) = true) : (u ++ rest).dropWhile p = rest := by
  rw [List.dropWhile_append_of_pos hu]
  cases rest with
  | nil => simp
  | cons c cs =>
    simp at hr
    simp [List.dropWhile_cons, hr]

theorem fieldNameMatchHere_marker (m w : Str) (hm : isMarker m) (hw : w ≠ [])
    (hn : ∀ c ∈ w, c ≠ '\n') : fieldNameMatchHere (m ++ w) = some (m, w) := by
  obtain ⟨u, rfl, hu, hup⟩ := hm
  have e : u ++ colons ++ w = u ++ (':' :: ':' :: w) := by simp [colons]
  have hh : (':' :: ':' :: w).head?.all (fun c => !isUpper c) = true := by
    simp; decide
  have hw' : w.takeWhile (fun c => c != '\n') = w := by
    rw [List.takeWhile_eq_self_iff]
    intro c hc
    simpa using hn c hc
  unfold fieldNameMatchHere
  rw [e, takeWhile_run u _ hup hh, dropWhile_run u _ hup hh]
  simp [hu, hw', hw, colons]

theorem fieldNameMatch_marker (m w : Str) (hm : isMarker m) (hw : w ≠ [])
    (hn : ∀ c ∈ w, c ≠ '\n') : fieldNameMatch (m ++ w) = some (m, w) := by
  have h := fieldNameMatchHere_marker m w hm hw hn
  cases hmw : m ++ w with
  | nil => simp [hw] at hmw
  | cons c cs =>
    rw [hmw] at h
    simp [fieldNameMatch, h]

theorem isWord_no_newline {w : Str} (hw : isWord w) : ∀ c ∈ w, c ≠ '\n' := by
  intro c hc h
  have := hw.2 c hc
  rw [h] at this
  exact absurd this (by decide)

theorem splitToken_marker_word (m w : Str) (hm : isMarker m) (hw : isWord w) :
    splitToken (m ++ w) = [m, w] := by
  simp [splitToken, fieldNameMatch_marker m w hm hw.1 (isWord_no_newline hw)]

theorem fieldNameMatchHere_sound {s a b : Str} (h : fieldNameMatchHere s = some (a, b)) :
    isMarker a ∧ b ≠ [] ∧ ∃ post, s = a ++ b ++ post := by
  unfold fieldNameMatchHere at h
  have hs := List.takeWhile_append_dropWhile isUpper s
  split at h
  · rename_i r hd
    by_cases hu : (s.takeWhile isUpper).isEmpty = true
    · simp [hu] at h
    · by_cases hv : (r.takeWhile (fun c => c != '\n')).isEmpty = true
      · simp [hu, hv] at h
      · simp only [hu, hv, if_false, Bool.false_eq_true, Option.some.injEq, Prod.mk.injEq] at h
        obtain ⟨rfl, rfl⟩ := h
        refine ⟨⟨s.takeWhile isUpper, rfl, ?_, ?_⟩, ?_, ?_⟩
        · simpa using hu
        · intro c hc
          exact (List.mem_takeWhile_imp hc)
        · simpa using hv
        · refine ⟨r.dropWhile (fun c => c != '\n'), ?_⟩
          have hr := List.takeWhile_append_dropWhile (fun c => c != '\n') r
          rw [hd] at hs
          conv_lhs => rw [← hs, ← hr]
          simp
  · simp at h

theorem fieldNameMatch_sound {s a b : Str} (h : fieldNameMatch s = some (a, b)) :
    isMarker a ∧ b ≠ [] ∧ ∃ pre post, s = pre ++ a ++ b ++ post := by
  induction s with
  | nil => simp [fieldNameMatch] at h
  | cons c cs ih =>
    rw [fieldNameMatch] at h
    cases hh : fieldNameMatchHere (c :: cs) with
    | some m =>
      rw [hh] at h
      simp only [Option.some.injEq] at h
      subst h
      obtain ⟨h1, h2, post, h3⟩ := fieldNameMatchHere_sound hh
      exact ⟨h1, h2, [], post, by simpa using h3⟩
    | none =>
      rw [hh] at h
      obtain ⟨h1, h2, pre, post, h3⟩ := ih h
      exact ⟨h1, h2, c :: pre, post, by simp [h3]⟩

theorem fieldNameMatch_eq_none {w : Str} (h : ¬ hasMarkerInside w) : fieldNameMatch w = none := by
  cases hh : fieldNameMatch w with
  | none => rfl
  | some m =>
    obtain ⟨a, b⟩ := m
    obtain ⟨⟨u, rfl, hu, hup⟩, h2, pre, post, h3⟩ := fieldNameMatch_sound hh
    exact absurd ⟨pre, u, b ++ post, by simp [h3], hu, hup, by simp [h2]⟩ h

theorem splitToken_plain (w : Str) (hw : plainWord w) : splitToken w = [w] := by
  simp [splitToken, fieldNameMatch_eq_none hw.2.2]


theorem fieldNameMatch_ne_none {w : Str} (h : hasMarkerInside w) (hn : ∀ c ∈ w, c ≠ '\n') :
    fieldNameMatch w ≠ none := by
  obtain ⟨pre, u, post, rfl, hu, hup, hp⟩ := h
  induction pre with
  | nil =>
    have hm : isMarker (u ++ colons) := ⟨u, rfl, hu, hup⟩
    have := fieldNameMatch_marker (u ++ colons) post hm hp
      (fun c hc => hn c (by simp [hc]))
    rw [List.nil_append, this]
    simp
  | cons c cs ih =>
    have ih' := ih (fun d hd => hn d (by simp at hd ⊢; tauto))
    simp only [List.cons_append, fieldNameMatch]
    cases fieldNameMatchHere (c :: (cs ++ u ++ colons ++ post)) with
    | some m => simp
    | none => simpa using ih'

theorem trigger_hasSuffix {t : Str} (h : t ∈ triggerMarkers) : hasSuffix t colons = true := by
  simp only [triggerMarkers, List.mem_cons, List.mem_singleton, List.not_mem_nil, or_false] at h
  rcases h with h | h | h | h | h <;> subst h <;> decide

theorem raiseFlag_inField (s : joinState) (t : Str) :
    (raiseFlag s t).inField = (s.inField || decide (t ∈ triggerMarkers)) := by
  unfold raiseFlag
  by_cases h1 : t = "SERVICEDESC::".toList
  · subst h1; simp [joinState.inField, triggerMarkers]
  by_cases h2 : t = "SERVICEPERFDATA::".toList
  · subst h2; simp [joinState.inField, triggerMarkers]
  by_cases h3 : t = "SERVICECHECKCOMMAND::".toList
  · subst h3; simp [joinState.inField, triggerMarkers]
  by_cases h4 : t = "HOSTPERFDATA::".toList
  · subst h4; simp [joinState.inField, triggerMarkers]
  by_cases h5 : t = "HOSTCHECKCOMMAND::".toList
  · subst h5; simp [joinState.inField, triggerMarkers]
  rw [if_neg h1, if_neg h2, if_neg h3, if_neg h4, if_neg h5]
  have : t ∉ triggerMarkers := by
    simp only [triggerMarkers, List.mem_cons, List.mem_singleton, List.not_mem_nil, or_false]
    tauto
  simp [this]

theorem raiseFlag_buffer (s : joinState) (t : Str) :
    (raiseFlag s t).tokenJoinBuffer = s.tokenJoinBuffer := by
  unfold raiseFlag
  repeat' split
  all_goals rfl

theorem raiseFlag_newTokens (s : joinState) (t : Str) :
    (raiseFlag s t).newTokens = s.newTokens := by
  unfold raiseFlag
  repeat' split
  all_goals rfl

theorem rejoinLoop_newTokens (ts : List Str) (s : joinState) :
    (rejoinLoop ts s).newTokens = s.newTokens ++ rj s.inField s.tokenJoinBuffer ts := by
  induction ts generalizing s with
  | nil => simp [rejoinLoop, rj]
  | cons t ts ih =>
    rw [rejoinLoop, ih, rj]
    unfold rejoinStep
    rw [raiseFlag_inField, raiseFlag_buffer, raiseFlag_newTokens]
    have e1 : ∀ b : Str, ({ s with tokenJoinBuffer := b } : joinState).inField = s.inField :=
      fun _ => rfl
    have e2 : ∀ b : List Str, ({ s with newTokens := b } : joinState).inField = s.inField :=
      fun _ => rfl
    by_cases hf : s.inField = true
    · by_cases hs : hasSuffix t colons = true
      · simp only [hf, hs, Bool.true_and, Bool.not_true, Bool.false_eq_true, if_false, if_true]
        simp [joinState.inField]
      · have hs' : hasSuffix t colons = false := by simpa using hs
        have ht : t ∉ triggerMarkers := fun h => by
          rw [trigger_hasSuffix h] at hs'; exact absurd hs' (by simp)
        by_cases hb : s.tokenJoinBuffer = []
        · simp [hf, hs', ht, hb, joinBuf, e1]
        · simp [hf, hs', ht, hb, joinBuf, e1]
    · have hf' : s.inField = false := by simpa using hf
      simp [hf', e2]

theorem rejoin_eq_rj (ts : List Str) : rejoin ts = rj false [] ts := by
  unfold rejoin
  rw [rejoinLoop_newTokens]
  rfl

theorem rj_false_cons (buf t : Str) (ts : List Str) :
    rj false buf (t :: ts) = t :: rj (decide (t ∈ triggerMarkers)) buf ts := by
  simp [rj]

theorem rj_true_marker (buf m : Str) (ts : List Str) (hm : hasSuffix m colons = true) :
    rj true buf (m :: ts) = buf :: m :: rj (decide (m ∈ triggerMarkers)) [] ts := by
  simp [rj, hm]

theorem rj_true_word (buf w : Str) (ts : List Str) (hw : hasSuffix w colons = false) :
    rj true buf (w :: ts) = rj true (joinBuf buf w) ts := by
  simp [rj, hw]

theorem rj_true_words (ws rest : List Str) (buf : Str)
    (hw : ∀ w ∈ ws, hasSuffix w colons = false) :
    rj true buf (ws ++ rest) = rj true (ws.foldl joinBuf buf) rest := by
  induction ws generalizing buf with
  | nil => rfl
  | cons w ws ih =>
    rw [List.cons_append, rj_true_word _ _ _ (hw w (by simp)), List.foldl_cons]
    exact ih _ (fun x hx => hw x (List.mem_cons_of_mem _ hx))

theorem foldl_joinBuf (ws : List Str) (buf : Str) (hb : buf ≠ []) :
    ws.foldl joinBuf buf = buf ++ ws.flatMap (fun x => ' ' :: x) := by
  induction ws generalizing buf with
  | nil => simp
  | cons w ws ih =>
    rw [List.foldl_cons]
    have : joinBuf buf w = buf ++ ' ' :: w := by simp [joinBuf, hb]
    rw [this, ih _ (by simp)]
    simp

theorem foldl_joinBuf_nil (w : Str) (ws : List Str) (hw : w ≠ []) :
    (w :: ws).foldl joinBuf [] = spaceJoin (w :: ws) := by
  rw [List.foldl_cons]
  have : joinBuf [] w = w := by simp [joinBuf]
  rw [this, foldl_joinBuf ws w hw]
  rfl

/-- A multi-word value followed by a token that ends in `::` is flushed as one
token, and the loop goes on from that token with the flags lowered. -/
theorem rj_true_flush (w : Str) (ws : List Str) (m : Str) (rest : List Str) (hw : w ≠ [])
    (hws : ∀ x ∈ w :: ws, hasSuffix x colons = false) (hm : hasSuffix m colons = true) :
    rj true [] (w :: ws ++ m :: rest) = spaceJoin (w :: ws) :: rj false [] (m :: rest) := by
  rw [rj_true_words _ _ _ hws, foldl_joinBuf_nil w ws hw, rj_true_marker _ _ _ hm, rj_false_cons]

/-- A multi-word value that ends the token list is dropped: the buffer is
never appended to `newTokens`. -/
theorem rj_true_end (ws : List Str) (buf : Str) (hws : ∀ x ∈ ws, hasSuffix x colons = false) :
    rj true buf ws = [] := by
  have := rj_true_words ws [] buf hws
  rw [List.append_nil] at this
  rw [this, rj]

theorem dispatchLoop_skip (ts : List Str) (p : Str) (perf : perfData) :
    dispatchLoop ts ⟨p, true, perf⟩ = dispatchLoop ts ⟨[], false, perf⟩ := by
  cases ts with
  | nil => rfl
  | cons t ts => simp [dispatchLoop, dispatchStep, dispatchSwitch, hasSuffix, colons]

theorem dispatchStep_init (t : Str) (perf : perfData) :
    dispatchStep ⟨[], false, perf⟩ t = .next ⟨t, false, perf⟩ := rfl

theorem dispatchStep_marker (m v : Str) (perf : perfData) (hm : hasSuffix m colons = true) :
    dispatchStep ⟨m, false, perf⟩ v = dispatchSwitch ⟨m, true, perf⟩ v := by
  simp [dispatchStep, hm]

theorem dispatchLoop_pair_next (m v : Str) (rest : List Str) (perf : perfData)
    (s : dispatchState) (hm : hasSuffix m colons = true)
    (h : dispatchSwitch ⟨m, true, perf⟩ v = .next s) :
    dispatchLoop (m :: v :: rest) ⟨[], false, perf⟩ = dispatchLoop rest s := by
  rw [dispatchLoop, dispatchStep_init]
  simp only
  rw [dispatchLoop, dispatchStep_marker _ _ _ hm, h]

theorem dispatchLoop_pair_fail (m v : Str) (rest : List Str) (perf p : perfData) (e : Str)
    (hm : hasSuffix m colons = true)
    (h : dispatchSwitch ⟨m, true, perf⟩ v = .fail p e) :
    dispatchLoop (m :: v :: rest) ⟨[], false, perf⟩ = (p, some e) := by
  rw [dispatchLoop, dispatchStep_init]
  simp only
  rw [dispatchLoop, dispatchStep_marker _ _ _ hm, h]

theorem dispatchSwitch_unrecognised (s : dispatchState) (t : Str) (h0 : s.prevToken ≠ [])
    (h : s.prevToken ∉ recognisedMarkers) :
    dispatchSwitch s t =
      .fail s.perf ("unimplemented perf data field name: ".toList ++ s.prevToken) := by
  simp only [recognisedMarkers, List.mem_cons, List.mem_singleton, List.not_mem_nil, or_false,
    not_or] at h
  obtain ⟨h1, h2, h3, h4, h5, h6, h7, h8, h9, h10, h11, h12⟩ := h
  unfold dispatchSwitch
  simp only
  rw [if_neg h0, if_neg h1, if_neg h2, if_neg h3, if_neg h4, if_neg (by tauto), if_neg h6,
    if_neg h7, if_neg h8, if_neg h10, if_neg h11, if_neg h12]

theorem isNumChar_of_letter {c : Char} (h : isLetter c = true) : isNumChar c = false := by
  by_cases hd : c = '.'
  · subst hd; revert h; decide
  · simp [isNumChar, isLetter, isUpper, isLower, isDigit, hd] at h ⊢
    omega

theorem isNameChar_of_parts {c : Char}
    (h : isLetter c = true ∨ isDigit c = true ∨ c = '-' ∨ c = '_') : isNameChar c = true := by
  rcases h with h | h | h | h
  · simp [isNameChar, isLetter] at h ⊢; tauto
  · simp [isNameChar, h]
  · subst h; decide
  · subst h; decide

theorem isNumChar_of_digit {c : Char} (h : isDigit c = true) : isNumChar c = true := by
  simp [isNumChar, h]

theorem digit_ne_minus {c : Char} (h : isDigit c = true) : c ≠ '-' := by
  intro hc; subst hc; revert h; decide

theorem splitLoop_run (w rest cur : Str) (hw : ' ' ∉ w) :
    splitLoop (w ++ rest) cur = splitLoop rest (w.reverse ++ cur) := by
  induction w generalizing cur with
  | nil => rfl
  | cons c cs ih =>
    have hc : c ≠ ' ' := fun h => hw (by simp [h])
    have h := ih (c :: cur) (fun h => hw (List.mem_cons_of_mem _ h))
    simpa [splitLoop, hc] using h

theorem splitSpace_word_space (w rest : Str) (hw : ' ' ∉ w) :
    splitSpace (w ++ ' ' :: rest) = w :: splitSpace rest := by
  unfold splitSpace
  rw [splitLoop_run w _ [] hw]
  simp [splitLoop]

theorem splitSpace_word (w : Str) (hw : ' ' ∉ w) : splitSpace w = [w] := by
  unfold splitSpace
  have := splitLoop_run w [] [] hw
  rw [List.append_nil] at this
  rw [this]
  simp [splitLoop]

theorem splitSpace_spaceJoin (w : Str) (ws : List Str) (h : ∀ x ∈ w :: ws, ' ' ∉ x) :
    splitSpace (spaceJoin (w :: ws)) = w :: ws := by
  induction ws generalizing w with
  | nil => simpa [spaceJoin] using splitSpace_word w (h w (by simp))
  | cons v vs ih =>
    rw [spaceJoin_cons_cons, splitSpace_word_space _ _ (h w (by simp))]
    rw [ih v (fun x hx => h x (List.mem_cons_of_mem _ hx))]

theorem parsePerfValuesLoop_ok (token : Str) (vs : List Str) (r : List perfDataValue)
    (f : Str → perfDataValue)
    (h : ∀ v ∈ vs, perfValueMatch v = some ((f v).name, (f v).value)) :
    parsePerfValuesLoop token vs r = (r ++ vs.map f, none) := by
  induction vs generalizing r with
  | nil => simp [parsePerfValuesLoop]
  | cons v vs ih =>
    rw [parsePerfValuesLoop, h v (by simp)]
    simp only
    rw [ih _ (fun x hx => h x (List.mem_cons_of_mem _ hx))]
    simp

theorem metricEntry_tail_head (e : metricEntry) (hw : e.wellFormed) :
    (e.unit ++ e.thresholds.flatMap (fun t => ';' :: t)).head?.all (fun c => !isNumChar c)
      = true := by
  obtain ⟨_, _, _, _, _, hu, _⟩ := hw
  cases hunit : e.unit with
  | cons c cs =>
    have := hu c (by simp [hunit])
    simp only [List.cons_append, List.head?_cons, Option.all_some, Bool.not_eq_true']
    rcases this with h | h
    · exact isNumChar_of_letter h
    · subst h; decide
  | nil =>
    cases e.thresholds with
    | nil => simp
    | cons t ts => simp; decide

theorem perfValueMatch_text (e : metricEntry) (hw : e.wellFormed) :
    perfValueMatch e.text = some (e.name, e.number) := by
  have htail := metricEntry_tail_head e hw
  obtain ⟨hn0, hn, hd0, hd, hf, _, _⟩ := hw
  have hname : ∀ c ∈ e.name, isNameChar c = true := fun c hc => isNameChar_of_parts (hn c hc)
  generalize htl : e.unit ++ e.thresholds.flatMap (fun t => ';' :: t) = tl at htail
  have hfrac : ∀ c ∈ e.fractionText, isNumChar c = true := by
    unfold metricEntry.fractionText
    cases hfr : e.fraction with
    | none => simp
    | some f =>
      intro c hc
      simp only [List.mem_cons] at hc
      rcases hc with rfl | hc
      · decide
      · exact isNumChar_of_digit (hf c (by simp [hfr, hc]))
  generalize hfp : e.fractionText = fp at hfrac
  obtain ⟨d, ds, hds⟩ := List.exists_cons_of_ne_nil hd0
  have hdd : isDigit d = true := hd d (by simp [hds])
  have hdsn : ∀ c ∈ ds ++ fp, isNumChar c = true := by
    intro c hc
    rcases List.mem_append.1 hc with h | h
    · exact isNumChar_of_digit (hd c (by simp [hds, h]))
    · exact hfrac c h
  have htext : e.text = e.name ++ ('=' :: ((if e.negative then ['-'] else []) ++
      d :: ((ds ++ fp) ++ tl))) := by
    simp [metricEntry.text, metricEntry.number, hds, hfp, ← htl]
  have hnum : e.number = (if e.negative then ['-'] else []) ++ d :: (ds ++ fp) := by
    simp [metricEntry.number, hds, hfp]
  have hh : ('=' :: ((if e.negative then ['-'] else []) ++ d :: ((ds ++ fp) ++ tl))).head?.all
      (fun c => !isNameChar c) = true := by simp; decide
  rw [htext, hnum]
  unfold perfValueMatch
  rw [takeWhile_run _ _ hname hh, dropWhile_run _ _ hname hh]
  have htw : ((ds ++ fp) ++ tl).takeWhile isNumChar = ds ++ fp := takeWhile_run _ _ hdsn htail
  rw [List.append_assoc] at htw
  cases e.negative with
  | true => simp [hn0, hdd, htw]
  | false => simp [hn0, hdd, htw, digit_ne_minus hdd]

theorem text_no_space (e : metricEntry) (hw : e.wellFormed) : ' ' ∉ e.text := by
  obtain ⟨_, hn, _, hd, hf, hu, ht⟩ := hw
  have hdig : ∀ c, isDigit c = true → c ≠ ' ' := by
    intro c h hc; subst hc; revert h; decide
  have hlet : ∀ c, isLetter c = true → c ≠ ' ' := by
    intro c h hc; subst hc; revert h; decide
  intro hmem
  simp only [metricEntry.text, metricEntry.number, List.mem_append, List.mem_cons,
    List.mem_flatMap] at hmem
  rcases hmem with ((h | h | ((h | h) | h)) | h) | h
  · rcases hn _ h with h' | h' | h' | h'
    · exact hlet _ h' rfl
    · exact hdig _ h' rfl
    · exact absurd h' (by decide)
    · exact absurd h' (by decide)
  · exact absurd h (by decide)
  · cases e.negative <;> simp at h
  · exact hdig _ (hd _ h) rfl
  · unfold metricEntry.fractionText at h
    cases hfr : e.fraction with
    | none => simp [hfr] at h
    | some f =>
      simp only [hfr, List.mem_cons] at h
      rcases h with h | h
      · exact absurd h (by decide)
      · exact hdig _ (hf _ (by simp [hfr, h])) rfl
  · rcases hu _ h with h' | h'
    · exact hlet _ h' rfl
    · exact absurd h' (by decide)
  · obtain ⟨t, ht1, ht2⟩ := h
    rcases ht2 with h | h
    · exact absurd h (by decide)
    · exact ht t ht1 h

/-- C2: for every non-empty list of metric entries of the form
`name=number[unit][;thresholds]`, `parsePerfValues` applied to the entries
joined by single spaces returns no error and exactly the pairs
`(name, number)` of the entries, one per entry and in input order. -/
theorem parsePerfValues_entries (token : Str) (es : List metricEntry) (hne : es ≠ [])
    (hwf : ∀ e ∈ es, e.wellFormed) :
    parsePerfValues token (spaceJoin (es.map metricEntry.text)) =
      (es.map (fun e => ⟨e.name, e.number⟩), none) := by
  obtain ⟨e, es', rfl⟩ := List.exists_cons_of_ne_nil hne
  unfold parsePerfValues
  rw [List.map_cons, splitSpace_spaceJoin]
  · rw [← List.map_cons, parsePerfValuesLoop_ok token _ [] (fun v =>
      match perfValueMatch v with
      | some (n, x) => ⟨n, x⟩
      | none => ⟨[], []⟩)]
    · simp only [List.nil_append, List.map_map]
      congr 1
      apply List.map_congr_left
      intro a ha
      simp [perfValueMatch_text a (hwf a ha)]
    · intro v hv
      rw [List.mem_map] at hv
      obtain ⟨a, ha, rfl⟩ := hv
      simp [perfValueMatch_text a (hwf a ha)]
  · intro x hx
    rw [← List.map_cons, List.mem_map] at hx
    obtain ⟨a, ha, rfl⟩ := hx
    exact text_no_space a (hwf a ha)

/-- C1: the end-to-end line parses without error into the record of the
scenario, except that `serviceCheckCommand` is left empty (and `serviceType`
holds the timestamp): the value `check_disk` of the last field stays in the
join buffer. -/
theorem getPerfData_endToEnd :
    getPerfData endToEndLine =
      ({ dataType := "SERVICEPERFDATA".toList
         timeT := some 1617000000
         serviceType := 1617000000
         hostName := "web1".toList
         serviceDesc := "Root Partition".toList
         perfDataValues := [⟨"used".toList, "55".toList⟩, ⟨"total".toList, "100".toList⟩]
         serviceCheckCommand := [] }, none) := by
  decide!

/-- C2, at `used=10%;90;95 total=100%`. -/
theorem parsePerfValues_entries_witness :
    (sampleEntries ≠ [] ∧ ∀ e ∈ sampleEntries, e.wellFormed) ∧
    parsePerfValues "SERVICEPERFDATA::".toList "used=10%;90;95 total=100%".toList =
      ([⟨"used".toList, "10".toList⟩, ⟨"total".toList, "100".toList⟩], none) :=
  have h1 : sampleEntries ≠ [] := List.cons_ne_nil _ _
  have h2 : ∀ e ∈ sampleEntries, e.wellFormed := by
    intro e he
    simp only [sampleEntries, List.mem_cons, List.mem_singleton, List.not_mem_nil, or_false] at he
    rcases he with rfl | rfl <;> (unfold metricEntry.wellFormed; decide)
  ⟨⟨h1, h2⟩, parsePerfValues_entries "SERVICEPERFDATA::".toList sampleEntries h1 h2⟩

theorem parsePerfValuesLoop_cases (token : Str) (vs : List Str) (r : List perfDataValue) :
    ((∀ v ∈ vs, perfValueMatch v ≠ none) ∧ (parsePerfValuesLoop token vs r).2 = none) ∨
    (∃ pre v post, vs = pre ++ v :: post ∧ (∀ x ∈ pre, perfValueMatch x ≠ none) ∧
      perfValueMatch v = none ∧
      parsePerfValuesLoop token vs r = ([], some (perfValueError token v))) := by
  induction vs generalizing r with
  | nil => left; simp [parsePerfValuesLoop]
  | cons v vs ih =>
    cases hv : perfValueMatch v with
    | none =>
      right
      exact ⟨[], v, vs, rfl, by simp, hv, by simp [parsePerfValuesLoop, hv, perfValueError]⟩
    | some m =>
      obtain ⟨n, x⟩ := m
      rcases ih (r ++ [⟨n, x⟩]) with ⟨h1, h2⟩ | ⟨pre, w, post, h1, h2, h3, h4⟩
      · left
        refine ⟨?_, by simpa [parsePerfValuesLoop, hv] using h2⟩
        intro y hy
        rcases List.mem_cons.1 hy with rfl | hy
        · simp [hv]
        · exact h1 y hy
      · right
        refine ⟨v :: pre, w, post, by simp [h1], ?_, h3, by simpa [parsePerfValuesLoop, hv] using h4⟩
        intro y hy
        rcases List.mem_cons.1 hy with rfl | hy
        · simp [hv]
        · exact h2 y hy

/-- C3: `parsePerfValues` is all-or-nothing.  It returns an error if and only
if one of the entries obtained by splitting the value on single spaces fails
the metric-entry pattern; then it returns no metric value at all, and the
error text names the marker and the first entry that fails.  The value
`used=abc` fails with an error naming `used=abc`. -/
theorem parsePerfValues_allOrNothing (token rawValue : Str) :
    ((parsePerfValues token rawValue).2 ≠ none ↔
      ∃ v ∈ splitSpace rawValue, perfValueMatch v = none) ∧
    (((∀ v ∈ splitSpace rawValue, perfValueMatch v ≠ none) ∧
        (parsePerfValues token rawValue).2 = none) ∨
      (∃ pre v post, splitSpace rawValue = pre ++ v :: post ∧
        (∀ x ∈ pre, perfValueMatch x ≠ none) ∧ perfValueMatch v = none ∧
        parsePerfValues token rawValue =
          ([], some ("error parsing perfdata value for token: ".toList ++ token ++
            ", ".toList ++ v)))) ∧
    parsePerfValues token "used=abc".toList =
      ([], some ("error parsing perfdata value for token: ".toList ++ token ++
        ", used=abc".toList)) := by
  have h := parsePerfValuesLoop_cases token (splitSpace rawValue) []
  refine ⟨?_, h, ?_⟩
  · unfold parsePerfValues
    rcases h with ⟨h1, h2⟩ | ⟨pre, v, post, h1, h2, h3, h4⟩
    · rw [h2]
      constructor
      · intro h; exact absurd rfl h
      · rintro ⟨v, hv, hv'⟩; exact absurd hv' (h1 v hv)
    · rw [h4]
      constructor
      · intro _; exact ⟨v, by simp [h1], h3⟩
      · intro _; simp
  · have e1 : splitSpace "used=abc".toList = ["used=abc".toList] := by decide
    have e2 : perfValueMatch "used=abc".toList = none := by decide
    unfold parsePerfValues
    rw [e1, parsePerfValuesLoop, e2]
    simp only [List.append_assoc]
    rfl

theorem fixLoop_eq (u : caseTables) (s : Str) (l : List Str) :
    fixLoop u s l =
      if ∃ r ∈ l, equalFold u r s = true then toLower u s ++ "_".toList else s := by
  induction l with
  | nil => simp [fixLoop]
  | cons i rest ih =>
    rw [fixLoop]
    by_cases h : equalFold u i s = true
    · rw [if_pos h, if_pos ⟨i, by simp, h⟩]
    · rw [if_neg h, ih]
      by_cases h' : ∃ r ∈ rest, equalFold u r s = true
      · obtain ⟨r, hr, hr'⟩ := h'
        rw [if_pos ⟨r, hr, hr'⟩, if_pos ⟨r, List.mem_cons_of_mem _ hr, hr'⟩]
      · rw [if_neg h', if_neg]
        rintro ⟨r, hr, hr'⟩
        rcases List.mem_cons.1 hr with rfl | hr
        · exact h hr'
        · exact h' ⟨r, hr, hr'⟩

/-- C9: for every identifier `s`, `fixInfluxReservedIdentifier s` is the
lower-cased `s` with `_` appended when `s` equals, ignoring letter case, one of
the reserved words, and `s` unchanged otherwise. -/
theorem fixInfluxReservedIdentifier_spec (u : caseTables) (s : Str) :
    fixInfluxReservedIdentifier u s =
      if ∃ r ∈ reserved, equalFold u r s = true then toLower u s ++ "_".toList else s :=
  fixLoop_eq u s reserved

theorem isSpace_of_upper {c : Char} (h : isUpper c = true) : isSpace c = false := by
  simp [isUpper, isSpace] at h ⊢
  omega

theorem isMarker_noSpace {m : Str} (hm : isMarker m) : ∀ c ∈ m, isSpace c = false := by
  obtain ⟨u, rfl, _, hu⟩ := hm
  intro c hc
  rcases List.mem_append.1 hc with h | h
  · exact isSpace_of_upper (hu c h)
  · simp [colons] at h
    subst h; decide

theorem isMarker_hasSuffix {m : Str} (hm : isMarker m) : hasSuffix m colons = true := by
  obtain ⟨u, rfl, _, _⟩ := hm
  simp [hasSuffix, colons]

theorem isMarker_ne_nil {m : Str} (hm : isMarker m) : m ≠ [] := by
  obtain ⟨u, rfl, hu, _⟩ := hm
  simp [hu]

theorem recognised_isMarker {m : Str} (h : m ∈ recognisedMarkers) : isMarker m := by
  simp only [recognisedMarkers, List.mem_cons, List.mem_singleton, List.not_mem_nil,
    or_false] at h
  rcases h with h | h | h | h | h | h | h | h | h | h | h | h <;> subst h
  · exact ⟨"DATATYPE".toList, rfl, by decide, by decide⟩
  · exact ⟨"TIMET".toList, rfl, by decide, by decide⟩
  · exact ⟨"HOSTNAME".toList, rfl, by decide, by decide⟩
  · exact ⟨"SERVICEDESC".toList, rfl, by decide, by decide⟩
  · exact ⟨"SERVICEPERFDATA".toList, rfl, by decide, by decide⟩
  · exact ⟨"SERVICECHECKCOMMAND".toList, rfl, by decide, by decide⟩
  · exact ⟨"SERVICESTATE".toList, rfl, by decide, by decide⟩
  · exact ⟨"SERVICESTATETYPE".toList, rfl, by decide, by decide⟩
  · exact ⟨"HOSTPERFDATA".toList, rfl, by decide, by decide⟩
  · exact ⟨"HOSTCHECKCOMMAND".toList, rfl, by decide, by decide⟩
  · exact ⟨"HOSTSTATE".toList, rfl, by decide, by decide⟩
  · exact ⟨"HOSTSTATETYPE".toList, rfl, by decide, by decide⟩

theorem trigger_recognised {m : Str} (h : m ∈ triggerMarkers) : m ∈ recognisedMarkers := by
  simp only [triggerMarkers, List.mem_cons, List.mem_singleton, List.not_mem_nil,
    or_false] at h
  rcases h with h | h | h | h | h <;> subst h <;> decide

theorem isWord_marker_append {m w : Str} (hm : isMarker m) (hw : isWord w) : isWord (m ++ w) := by
  refine ⟨by simp [hw.1], ?_⟩
  intro c hc
  rcases List.mem_append.1 hc with h | h
  · exact isMarker_noSpace hm c h
  · exact hw.2 c h

theorem not_trigger_of_noSuffix {w : Str} (h : hasSuffix w colons = false) :
    w ∉ triggerMarkers := fun hw => by
  rw [trigger_hasSuffix hw] at h; exact absurd h (by simp)

theorem not_recognised_of_noSuffix {w : Str} (h : hasSuffix w colons = false) :
    w ∉ recognisedMarkers := fun hw => by
  rw [isMarker_hasSuffix (recognised_isMarker hw)] at h; exact absurd h (by simp)

theorem pair_marker_recognised {p : pair} (hp : p.valid) : p.marker ∈ recognisedMarkers := by
  obtain ⟨_, _, h | h | h | h⟩ := hp
  · have := h.1
    simp only [List.mem_cons, List.mem_singleton, List.not_mem_nil, or_false] at this
    rcases this with h | h <;> rw [h] <;> decide
  · have := h.1
    simp only [List.mem_cons, List.mem_singleton, List.not_mem_nil, or_false] at this
    rcases this with h | h | h | h | h <;> rw [h] <;> decide
  · simp only [List.mem_cons, List.mem_singleton, List.not_mem_nil, or_false] at h
    rcases h with h | h | h <;> rw [h] <;> decide
  · have := h.1
    simp only [List.mem_cons, List.mem_singleton, List.not_mem_nil, or_false] at this
    rcases this with h | h <;> rw [h] <;> decide

theorem pair_pieces_words {p : pair} (hp : p.valid) : ∀ w ∈ p.pieces, isWord w := by
  intro w hw
  rcases List.mem_cons.1 hw with rfl | h
  · exact isWord_marker_append (recognised_isMarker (pair_marker_recognised hp)) hp.1.1
  · exact (hp.2.1 w h).1

/-- The tokenizer on the pieces of a well-formed pair: the marker is split
from the first word, the other words pass unchanged. -/
theorem pair_pieces_split {p : pair} (hp : p.valid) :
    p.pieces.flatMap splitToken = p.marker :: p.first :: p.more := by
  have h1 := splitToken_marker_word p.marker p.first
    (recognised_isMarker (pair_marker_recognised hp)) hp.1.1
  have h2 : p.more.flatMap splitToken = p.more := by
    have : ∀ l : List Str, (∀ w ∈ l, plainWord w) → l.flatMap splitToken = l := by
      intro l
      induction l with
      | nil => intro _; rfl
      | cons a l ih =>
        intro h
        rw [List.flatMap_cons, splitToken_plain a (h a (by simp)),
          ih (fun w hw => h w (List.mem_cons_of_mem _ hw))]
        rfl
    exact this _ hp.2.1
  simp [pair.pieces, List.flatMap_cons, h1, h2]

theorem nontrigger_more_nil {p : pair} (hp : p.valid) (ht : p.marker ∉ triggerMarkers) :
    p.more = [] := by
  obtain ⟨_, _, h | h | h | h⟩ := hp
  · exact h.2
  · exact h.2.1
  · exact absurd (by
      simp only [List.mem_cons, List.mem_singleton, List.not_mem_nil, or_false] at h
      rcases h with h | h | h <;> rw [h] <;> decide) ht
  · exact absurd (by
      have := h.1
      simp only [List.mem_cons, List.mem_singleton, List.not_mem_nil, or_false] at this
      rcases this with h | h <;> rw [h] <;> decide) ht

/-- The rejoiner on a well-formed pair that is followed by a token ending in
`::`: it leaves the marker and the value as one token each. -/
theorem rj_pair {p : pair} (hp : p.valid) (m : Str) (rest : List Str)
    (hm : hasSuffix m colons = true) :
    rj false [] (p.marker :: p.first :: (p.more ++ m :: rest)) =
      p.marker :: p.value :: rj false [] (m :: rest) := by
  rw [rj_false_cons]
  by_cases ht : p.marker ∈ triggerMarkers
  · rw [decide_eq_true ht]
    have hws : ∀ x ∈ p.first :: p.more, hasSuffix x colons = false := by
      intro x hx
      rcases List.mem_cons.1 hx with rfl | h
      · exact hp.1.2.1
      · exact (hp.2.1 x h).2.1
    have := rj_true_flush p.first p.more m rest hp.1.1.1 hws hm
    rw [List.cons_append] at this
    rw [this]
    rfl
  · rw [decide_eq_false ht, nontrigger_more_nil hp ht, List.nil_append, rj_false_cons,
      decide_eq_false (not_trigger_of_noSuffix hp.1.2.1)]
    simp [pair.value, spaceJoin, nontrigger_more_nil hp ht]

theorem pairs_head_suffix (ps : List pair) (hps : ∀ p ∈ ps, p.valid) (m : Str) (rest : List Str)
    (hm : hasSuffix m colons = true) :
    ∃ m' rest', ps.flatMap (fun p => p.marker :: p.first :: p.more) ++ m :: rest = m' :: rest' ∧
      hasSuffix m' colons = true := by
  cases ps with
  | nil => exact ⟨m, rest, rfl, hm⟩
  | cons p ps =>
    exact ⟨p.marker, p.first ::
      (p.more ++ (ps.flatMap (fun p => p.marker :: p.first :: p.more) ++ m :: rest)),
      by simp, isMarker_hasSuffix
      (recognised_isMarker (pair_marker_recognised (hps p (by simp))))⟩

/-- The rejoiner on well-formed pairs that are followed by a token ending in
`::`. -/
theorem rj_pairs (ps : List pair) (hps : ∀ p ∈ ps, p.valid) (m : Str) (rest : List Str)
    (hm : hasSuffix m colons = true) :
    rj false [] (ps.flatMap (fun p => p.marker :: p.first :: p.more) ++ m :: rest) =
      ps.flatMap (fun p => [p.marker, p.value]) ++ rj false [] (m :: rest) := by
  induction ps with
  | nil => rfl
  | cons p ps ih =>
    obtain ⟨m', rest', e, hm'⟩ := pairs_head_suffix ps
      (fun q hq => hps q (List.mem_cons_of_mem _ hq)) m rest hm
    have ih' := ih (fun q hq => hps q (List.mem_cons_of_mem _ hq))
    simp only [List.flatMap_cons, List.append_assoc]
    rw [e] at ih' ⊢
    have := rj_pair (hps p (by simp)) m' rest' hm'
    simp only [List.cons_append] at this ⊢
    rw [this, ih']
    rfl

theorem word_no_space {w : Str} (hw : isWord w) : ' ' ∉ w := fun h => by
  have := hw.2 _ h
  exact absurd this (by decide)

theorem parsePerfValues_ok (token : Str) (w : Str) (ws : List Str)
    (hw : ∀ x ∈ w :: ws, isWord x) (hm : ∀ x ∈ w :: ws, perfValueMatch x ≠ none) :
    (parsePerfValues token (spaceJoin (w :: ws))).2 = none := by
  unfold parsePerfValues
  rw [splitSpace_spaceJoin w ws (fun x hx => word_no_space (hw x hx))]
  rcases parsePerfValuesLoop_cases token (w :: ws) [] with ⟨_, h⟩ | ⟨pre, v, post, h1, _, h3, _⟩
  · exact h
  · exact absurd h3 (hm v (by rw [h1]; simp))

/-- The dispatcher on the marker and the value of a well-formed pair: the
field is assigned and the loop goes on. -/
theorem dispatchSwitch_pair {p : pair} (hp : p.valid) (perf : perfData) :
    dispatchSwitch ⟨p.marker, true, perf⟩ p.value = .next ⟨p.value, true, applyPair perf p⟩ := by
  have key : ∀ s, dispatchSwitch ⟨p.marker, true, perf⟩ p.value = .next s →
      s.prevToken = p.value → s.skipIdent = true →
      dispatchSwitch ⟨p.marker, true, perf⟩ p.value = .next ⟨p.value, true, applyPair perf p⟩ := by
    intro s hs h1 h2
    unfold applyPair
    rw [hs]
    obtain ⟨a, b, c⟩ := s
    simp only at h1 h2 ⊢
    rw [h1, h2]
  obtain ⟨hf, hmore, h | h | h | h⟩ := hp
  · have := h.1
    simp only [List.mem_cons, List.mem_singleton, List.not_mem_nil, or_false] at this
    rcases this with hm | hm <;> rw [hm] at key ⊢ <;> exact key _ rfl rfl rfl
  · obtain ⟨hmem, hnil, hint⟩ := h
    have hv : p.value = p.first := by simp [pair.value, spaceJoin, hnil]
    obtain ⟨i, hi⟩ := Option.ne_none_iff_exists'.1 hint
    rw [← hv] at hi
    simp only [List.mem_cons, List.mem_singleton, List.not_mem_nil, or_false] at hmem
    rcases hmem with hm | hm | hm | hm | hm <;> rw [hm] at key ⊢ <;>
      exact key _ (by simp [dispatchSwitch, intField, parseInt, hi]; rfl) rfl rfl
  · simp only [List.mem_cons, List.mem_singleton, List.not_mem_nil, or_false] at h
    rcases h with hm | hm | hm <;> rw [hm] at key ⊢ <;> exact key _ rfl rfl rfl
  · obtain ⟨hmem, hall⟩ := h
    have hw : ∀ x ∈ p.first :: p.more, isWord x := by
      intro x hx
      rcases List.mem_cons.1 hx with rfl | hx
      · exact hf.1
      · exact (hmore x hx).1
    have hok := parsePerfValues_ok p.marker p.first p.more hw hall
    have hv : p.value = spaceJoin (p.first :: p.more) := rfl
    rw [← hv] at hok
    cases hpp : parsePerfValues p.marker p.value with
    | mk vals err =>
      rw [hpp] at hok
      simp only at hok
      subst hok
      simp only [List.mem_cons, List.mem_singleton, List.not_mem_nil, or_false] at hmem
      rcases hmem with hm | hm <;> rw [hm] at key hpp ⊢ <;>
        exact key _ (by simp [dispatchSwitch]; simp at hpp; rw [hpp]) rfl rfl

theorem dispatchLoop_pairs (ps : List pair) (hps : ∀ p ∈ ps, p.valid) (rest : List Str)
    (perf : perfData) :
    dispatchLoop (ps.flatMap (fun p => [p.marker, p.value]) ++ rest) ⟨[], false, perf⟩ =
      dispatchLoop rest ⟨[], false, ps.foldl applyPair perf⟩ := by
  induction ps generalizing perf with
  | nil => rfl
  | cons p ps ih =>
    have hp := hps p (by simp)
    have hm := isMarker_hasSuffix (recognised_isMarker (pair_marker_recognised hp))
    simp only [List.flatMap_cons, List.cons_append, List.nil_append, List.foldl_cons,
      List.append_assoc]
    rw [dispatchLoop_pair_next _ _ _ _ _ hm (dispatchSwitch_pair hp perf), dispatchLoop_skip]
    exact ih (fun q hq => hps q (List.mem_cons_of_mem _ hq)) _

theorem pieces_split (ps : List pair) (hps : ∀ p ∈ ps, p.valid) :
    (ps.flatMap pair.pieces).flatMap splitToken =
      ps.flatMap (fun p => p.marker :: p.first :: p.more) := by
  induction ps with
  | nil => rfl
  | cons p ps ih =>
    simp only [List.flatMap_cons, List.flatMap_append]
    rw [pair_pieces_split (hps p (by simp)), ih (fun q hq => hps q (List.mem_cons_of_mem _ hq))]

/-- A line whose pieces are those of well-formed pairs followed by pieces that
the tokenizer turns into `m :: rest`, with `m` ending in `::`: the pairs are
assigned, and the dispatcher goes on with the rejoined `m :: rest`. -/
theorem getPerfData_pairs (line : Str) (ps : List pair) (hps : ∀ p ∈ ps, p.valid)
    (tail : List Str) (m : Str) (rest : List Str) (hf : fields line = ps.flatMap pair.pieces ++ tail)
    (ht : tail.flatMap splitToken = m :: rest) (hm : hasSuffix m colons = true) :
    getPerfData line =
      dispatchLoop (rj false [] (m :: rest)) ⟨[], false, ps.foldl applyPair {}⟩ := by
  unfold getPerfData tokenize dispatch
  rw [hf, List.flatMap_append, pieces_split ps hps, ht, rejoin_eq_rj, rj_pairs ps hps m rest hm,
    dispatchLoop_pairs ps hps]

/-- After well-formed pairs, a piece `U::v` with an unrecognised marker makes
the dispatcher return the `unimplemented` error, whatever follows. -/
theorem getPerfData_unrecognised (line : Str) (ps : List pair) (hps : ∀ p ∈ ps, p.valid)
    (u v : Str) (after : List Str) (hu : u ≠ []) (hup : ∀ c ∈ u, isUpper c = true)
    (hnr : u ++ colons ∉ recognisedMarkers) (hv : isWord v)
    (hf : fields line = ps.flatMap pair.pieces ++ (u ++ colons ++ v) :: after) :
    getPerfData line = (ps.foldl applyPair {}, some (unimplementedError (u ++ colons))) := by
  have hmk : isMarker (u ++ colons) := ⟨u, rfl, hu, hup⟩
  have hs := isMarker_hasSuffix hmk
  rw [getPerfData_pairs line ps hps _ (u ++ colons) (v :: after.flatMap splitToken) hf
    (by rw [List.flatMap_cons, splitToken_marker_word _ _ hmk hv]; rfl) hs]
  rw [rj_false_cons, decide_eq_false (fun h => hnr (trigger_recognised h)), rj_false_cons]
  exact dispatchLoop_pair_fail _ _ _ _ _ _ hs
    (dispatchSwitch_unrecognised ⟨u ++ colons, true, _⟩ v (isMarker_ne_nil hmk) hnr)

theorem plainWord_of_checks (w : Str) (h1 : w ≠ []) (h2 : w.all (fun c => !isSpace c) = true)
    (h3 : hasSuffix w colons = false) (h4 : fieldNameMatch w = none) : plainWord w := by
  have hw : isWord w := ⟨h1, fun c hc => by simpa using (List.all_eq_true.1 h2) c hc⟩
  exact ⟨hw, h3, fun h => fieldNameMatch_ne_none h (isWord_no_newline hw) h4⟩

theorem spaceJoin_append_singleton (w : Str) (ws : List Str) (x : Str) :
    spaceJoin (w :: ws ++ [x]) = spaceJoin (w :: ws) ++ ' ' :: x := by
  simp [spaceJoin]

/-- C4: for all plain words `w₁ … wₙ`, `n ≥ 1`, the line
`SERVICEDESC::w₁ … wₙ SERVICEPERFDATA::used=10%;;;` parses without error into
a record whose `serviceDesc` is the words joined by single spaces (the other
fields keep their zero values). -/
theorem getPerfData_serviceDesc_multiWord (w : Str) (ws : List Str)
    (hw : ∀ x ∈ w :: ws, plainWord x) :
    getPerfData ("SERVICEDESC::".toList ++ spaceJoin (w :: ws) ++
        " SERVICEPERFDATA::used=10%;;;".toList) =
      ({ serviceDesc := spaceJoin (w :: ws) }, none) := by
  let p : pair := ⟨"SERVICEDESC::".toList, w, ws⟩
  have hp : p.valid := ⟨hw w (by simp), fun x hx => hw x (List.mem_cons_of_mem _ hx),
    Or.inr (Or.inr (Or.inl (by simp [p])))⟩
  have hps : ∀ q ∈ [p], q.valid := by simpa using hp
  have hline : "SERVICEDESC::".toList ++ spaceJoin (w :: ws) ++
      " SERVICEPERFDATA::used=10%;;;".toList =
      spaceJoin ([p].flatMap pair.pieces ++ ["SERVICEPERFDATA::used=10%;;;".toList]) := by
    have : [p].flatMap pair.pieces = ("SERVICEDESC::".toList ++ w) :: ws := by
      simp [pair.pieces, p]
    rw [this, spaceJoin_append_singleton]
    simp [spaceJoin]
  have hf : fields (spaceJoin ([p].flatMap pair.pieces ++
      ["SERVICEPERFDATA::used=10%;;;".toList])) =
      [p].flatMap pair.pieces ++ ["SERVICEPERFDATA::used=10%;;;".toList] := by
    apply fields_spaceJoin
    intro x hx
    rcases List.mem_append.1 hx with h | h
    · simp only [List.flatMap_cons, List.flatMap_nil, List.append_nil] at h
      exact pair_pieces_words hp x h
    · simp only [List.mem_singleton] at h
      subst h
      exact ⟨by decide, by decide⟩
  rw [hline, getPerfData_pairs _ [p] hps ["SERVICEPERFDATA::used=10%;;;".toList]
    "SERVICEPERFDATA::".toList ["used=10%;;;".toList] hf (by decide) (by decide)]
  rfl

/-- C4, at `SERVICEDESC::Disk Space SERVICEPERFDATA::used=10%;;;`. -/
theorem getPerfData_serviceDesc_multiWord_witness :
    (∀ x ∈ ["Disk".toList, "Space".toList], plainWord x) ∧
    getPerfData "SERVICEDESC::Disk Space SERVICEPERFDATA::used=10%;;;".toList =
      ({ serviceDesc := "Disk Space".toList }, none) :=
  have h : ∀ x ∈ ["Disk".toList, "Space".toList], plainWord x := by
    intro x hx
    simp only [List.mem_cons, List.mem_singleton, List.not_mem_nil, or_false] at hx
    rcases hx with rfl | rfl <;>
      exact plainWord_of_checks _ (by decide) (by decide) (by decide) (by decide)
  ⟨h, getPerfData_serviceDesc_multiWord "Disk".toList ["Space".toList] h⟩

theorem hostNamePair_valid : hostNamePair.valid :=
  ⟨plainWord_of_checks _ (by decide) (by decide) (by decide) (by decide),
    fun _ h => absurd h (List.not_mem_nil _), Or.inl ⟨by decide, rfl⟩⟩

/-- C5, refuted as stated: in `DATATYPE:: FOOBAR::x` and in
`HOSTNAME::web1 FOOBAR::` a token starts with the unrecognised marker
`FOOBAR::`, and `getPerfData` returns no error. -/
theorem unrecognised_marker_skipped :
    (∃ t ∈ fields "DATATYPE:: FOOBAR::x".toList, ∃ u rest : Str, t = u ++ colons ++ rest ∧
      u ≠ [] ∧ (∀ c ∈ u, isUpper c = true) ∧ u ++ colons ∉ recognisedMarkers) ∧
    (getPerfData "DATATYPE:: FOOBAR::x".toList).2 = none ∧
    (∃ t ∈ fields "HOSTNAME::web1 FOOBAR::".toList, ∃ u rest : Str, t = u ++ colons ++ rest ∧
      u ≠ [] ∧ (∀ c ∈ u, isUpper c = true) ∧ u ++ colons ∉ recognisedMarkers) ∧
    (getPerfData "HOSTNAME::web1 FOOBAR::".toList).2 = none :=
  ⟨⟨"FOOBAR::x".toList, by decide, "FOOBAR".toList, "x".toList, by decide, by decide, by decide,
      by decide⟩,
    by decide!,
    ⟨"FOOBAR::".toList, by decide, "FOOBAR".toList, [], by decide, by decide, by decide,
      by decide⟩,
    by decide!⟩

/-- C5, amended: when the pieces of a line are those of zero or more
well-formed pairs of recognised markers, then a piece `U::v` with `U` one or
more upper-case letters, `U::` not recognised and `v` not empty, then any
further pieces, `getPerfData` returns an error. -/
theorem unrecognised_marker_reported (line : Str) (ps : List pair) (hps : ∀ p ∈ ps, p.valid)
    (u v : Str) (after : List Str) (hu : u ≠ []) (hup : ∀ c ∈ u, isUpper c = true)
    (hnr : u ++ colons ∉ recognisedMarkers) (hv : isWord v)
    (hf : fields line = ps.flatMap pair.pieces ++ (u ++ colons ++ v) :: after) :
    (getPerfData line).2 ≠ none := by
  rw [getPerfData_unrecognised line ps hps u v after hu hup hnr hv hf]
  simp

/-- C5 amended, at `HOSTNAME::web1  FOOBAR::baz TIMET::5` (with two spaces
before `FOOBAR`). -/
theorem unrecognised_marker_reported_witness :
    (∀ p ∈ [hostNamePair], p.valid) ∧ "FOOBAR".toList ≠ [] ∧
    (∀ c ∈ "FOOBAR".toList, isUpper c = true) ∧
    "FOOBAR".toList ++ colons ∉ recognisedMarkers ∧ isWord "baz".toList ∧
    fields "HOSTNAME::web1  FOOBAR::baz TIMET::5".toList =
      [hostNamePair].flatMap pair.pieces ++
        ("FOOBAR".toList ++ colons ++ "baz".toList) :: ["TIMET::5".toList] ∧
    (getPerfData "HOSTNAME::web1  FOOBAR::baz TIMET::5".toList).2 ≠ none :=
  have h1 : ∀ p ∈ [hostNamePair], p.valid := by simpa using hostNamePair_valid
  have h2 : isWord "baz".toList := ⟨by decide, by decide⟩
  ⟨h1, by decide, by decide, by decide, h2, by decide,
    unrecognised_marker_reported _ [hostNamePair] h1 "FOOBAR".toList "baz".toList
      ["TIMET::5".toList] (by decide) (by decide) (by decide) h2 (by decide)⟩

/-- C6: for every line made of zero or more well-formed pairs of recognised
markers followed by a pair `U::v`, with `U` one or more upper-case letters,
`U::` not recognised and `v` a non-empty word without white space,
`getPerfData` returns the error `unimplemented perf data field name: U::`. -/
theorem unrecognised_marker_error (ps : List pair) (hps : ∀ p ∈ ps, p.valid) (u v : Str)
    (hu : u ≠ []) (hup : ∀ c ∈ u, isUpper c = true) (hnr : u ++ colons ∉ recognisedMarkers)
    (hv : isWord v) :
    (getPerfData (spaceJoin (ps.flatMap pair.pieces ++ [u ++ colons ++ v]))).2 =
      some ("unimplemented perf data field name: ".toList ++ (u ++ colons)) := by
  have hf : fields (spaceJoin (ps.flatMap pair.pieces ++ [u ++ colons ++ v])) =
      ps.flatMap pair.pieces ++ [u ++ colons ++ v] := by
    apply fields_spaceJoin
    intro x hx
    rcases List.mem_append.1 hx with h | h
    · obtain ⟨p, hp, hxp⟩ := List.mem_flatMap.1 h
      exact pair_pieces_words (hps p hp) x hxp
    · simp only [List.mem_singleton] at h
      subst h
      exact isWord_marker_append ⟨u, rfl, hu, hup⟩ hv
  rw [getPerfData_unrecognised _ ps hps u v [] hu hup hnr hv hf]
  rfl

/-- C6, at `FOOBAR::baz` after the pair `HOSTNAME::web1`. -/
theorem unrecognised_marker_error_witness :
    ((∀ p ∈ [hostNamePair], p.valid) ∧ "FOOBAR".toList ≠ [] ∧
      (∀ c ∈ "FOOBAR".toList, isUpper c = true) ∧
      "FOOBAR".toList ++ colons ∉ recognisedMarkers ∧ isWord "baz".toList) ∧
    (getPerfData "HOSTNAME::web1 FOOBAR::baz".toList).2 =
      some "unimplemented perf data field name: FOOBAR::".toList :=
  have h1 : ∀ p ∈ [hostNamePair], p.valid := by simpa using hostNamePair_valid
  have h2 : isWord "baz".toList := ⟨by decide, by decide⟩
  ⟨⟨h1, by decide, by decide, by decide, h2⟩,
    unrecognised_marker_error [hostNamePair] h1 "FOOBAR".toList "baz".toList (by decide)
      (by decide) (by decide) h2⟩

theorem tokenize_word_space (a s : Str) (ha : isWord a) :
    tokenize (a ++ ' ' :: s) = splitToken a ++ tokenize s := by
  unfold tokenize
  rw [fields_word_space a s ha, List.flatMap_cons]

theorem tokenize_word (a : Str) (ha : isWord a) : tokenize a = splitToken a := by
  unfold tokenize
  rw [fields_word a ha]
  simp

theorem parseDigits_all (ds : Str) (acc : Nat) (h : parseDigits ds acc ≠ none) :
    ds.all isDigit = true := by
  induction ds generalizing acc with
  | nil => rfl
  | cons c cs ih =>
    rw [parseDigits] at h
    by_cases hc : isDigit c = true
    · rw [if_pos hc] at h
      simp [hc, ih _ h]
    · rw [if_neg hc] at h
      exact absurd rfl h

/-- A word that is not a base-10 integer is rejected by `strconv.Atoi`. -/
theorem atoi_eq_none (w : Str) (h : isDecimalInt w = false) : atoi w = none := by
  unfold atoi
  unfold isDecimalInt at h
  simp only at h ⊢
  generalize (if (w.head? == some '-' || w.head? == some '+') = true then w.tail else w) = ds at h ⊢
  by_cases he : ds.isEmpty = true
  · rw [if_pos he]
  · rw [if_neg he]
    cases hp : parseDigits ds 0 with
    | none => rfl
    | some n =>
      have := parseDigits_all ds 0 (by rw [hp]; simp)
      simp [he, this] at h

theorem dispatchSwitch_int_fail (m w : Str) (perf : perfData)
    (hm : m ∈ ["SERVICESTATE::".toList, "SERVICESTATETYPE::".toList, "HOSTSTATE::".toList,
      "HOSTSTATETYPE::".toList]) (hw : atoi w = none) :
    dispatchSwitch ⟨m, true, perf⟩ w = .fail perf (intError m w) := by
  simp only [List.mem_cons, List.mem_singleton, List.not_mem_nil, or_false] at hm
  rcases hm with rfl | rfl | rfl | rfl <;>
    simp [dispatchSwitch, intField, parseInt, hw, intError]

theorem dispatchSwitch_timet_fail (w : Str) (perf : perfData) (hw : atoi w = none) :
    dispatchSwitch ⟨"TIMET::".toList, true, perf⟩ w = .next ⟨"TIMET::".toList, true, perf⟩ := by
  simp [dispatchSwitch, parseInt, hw]

/-- The dispatcher passes over a `TIMET::` pair whose value is not accepted by
`strconv.Atoi` and goes on as from the start of a pair. -/
theorem dispatchLoop_timet_fail (w : Str) (rest : List Str) (perf : perfData)
    (hw : atoi w = none) :
    dispatchLoop ("TIMET::".toList :: w :: rest) ⟨[], false, perf⟩ =
      dispatchLoop rest ⟨[], false, perf⟩ := by
  rw [dispatchLoop_pair_next _ _ _ _ _ (by decide) (dispatchSwitch_timet_fail w perf hw),
    dispatchLoop_skip]

/-- C8: for every non-empty word `w` without white space that is not a base-10
integer and every rest of line `s`, `getPerfData` applied to
`SERVICESTATE::w s` (and to `SERVICESTATE::w` alone) returns the
integer-format error naming `SERVICESTATE::` and `w`, with a record in which
no field is assigned; the same for `SERVICESTATETYPE::`, `HOSTSTATE::` and
`HOSTSTATETYPE::`. -/
theorem getPerfData_state_strict (m w s : Str)
    (hm : m ∈ ["SERVICESTATE::".toList, "SERVICESTATETYPE::".toList, "HOSTSTATE::".toList,
      "HOSTSTATETYPE::".toList]) (hw : isWord w) (hint : isDecimalInt w = false) :
    getPerfData (m ++ w ++ ' ' :: s) =
      ({}, some ("error parsing integer for token: (".toList ++ m ++ "): (".toList ++ w ++
        ")".toList)) ∧
    getPerfData (m ++ w) =
      ({}, some ("error parsing integer for token: (".toList ++ m ++ "): (".toList ++ w ++
        ")".toList)) := by
  have hrec : m ∈ recognisedMarkers := by
    simp only [List.mem_cons, List.mem_singleton, List.not_mem_nil, or_false] at hm
    rcases hm with rfl | rfl | rfl | rfl <;> decide
  have hmk := recognised_isMarker hrec
  have hs := isMarker_hasSuffix hmk
  have hsw := splitToken_marker_word m w hmk hw
  have hmw := isWord_marker_append hmk hw
  have hfail := dispatchSwitch_int_fail m w {} hm (atoi_eq_none w hint)
  have hnt : m ∉ triggerMarkers := by
    simp only [List.mem_cons, List.mem_singleton, List.not_mem_nil, or_false] at hm
    rcases hm with rfl | rfl | rfl | rfl <;> decide
  constructor
  · unfold getPerfData dispatch
    rw [tokenize_word_space _ _ hmw, hsw, rejoin_eq_rj]
    simp only [List.cons_append, List.nil_append]
    rw [rj_false_cons, decide_eq_false hnt, rj_false_cons]
    exact dispatchLoop_pair_fail _ _ _ _ _ _ hs hfail
  · unfold getPerfData dispatch
    rw [tokenize_word _ hmw, hsw, rejoin_eq_rj, rj_false_cons, decide_eq_false hnt,
      rj_false_cons]
    exact dispatchLoop_pair_fail _ _ _ _ _ _ hs hfail

/-- C8, at `SERVICESTATE::notanumber HOSTNAME::web1`: `hostName` stays
empty. -/
theorem getPerfData_state_strict_witness :
    ("SERVICESTATE::".toList ∈ ["SERVICESTATE::".toList, "SERVICESTATETYPE::".toList,
        "HOSTSTATE::".toList, "HOSTSTATETYPE::".toList] ∧
      isWord "notanumber".toList ∧ isDecimalInt "notanumber".toList = false) ∧
    getPerfData "SERVICESTATE::notanumber HOSTNAME::web1".toList =
      ({}, some "error parsing integer for token: (SERVICESTATE::): (notanumber)".toList) ∧
    (getPerfData "SERVICESTATE::notanumber HOSTNAME::web1".toList).1.hostName = [] :=
  have h1 : isWord "notanumber".toList := ⟨by decide, by decide⟩
  have h := (getPerfData_state_strict "SERVICESTATE::".toList "notanumber".toList
    "HOSTNAME::web1".toList (by decide) h1 (by decide)).1
  ⟨⟨by decide, h1, by decide⟩, h, congrArg (fun r => r.1.hostName) h⟩

theorem dispatchLoop_stray (t : Str) (rest : List Str) (perf : perfData) (h0 : t ≠ [])
    (h : t ∉ recognisedMarkers) : (dispatchLoop (t :: rest) ⟨[], false, perf⟩).1 = perf := by
  rw [dispatchLoop, dispatchStep_init]
  simp only
  cases rest with
  | nil => rfl
  | cons y ys =>
    rw [dispatchLoop]
    have : dispatchStep ⟨t, false, perf⟩ y = .fail perf (unimplementedError t) := by
      unfold dispatchStep
      simp only [Bool.false_eq_true, if_false]
      by_cases hs : hasSuffix t colons = true
      · rw [if_pos hs]
        exact dispatchSwitch_unrecognised ⟨t, true, perf⟩ y h0 h
      · rw [if_neg hs]
        exact dispatchSwitch_unrecognised ⟨t, false, perf⟩ y h0 h
    rw [this]

theorem not_recognised_of_space {b : Str} (h : ' ' ∈ b) : b ∉ recognisedMarkers := fun hb =>
  absurd (isMarker_noSpace (recognised_isMarker hb) _ h) (by decide)

theorem rj_true_buf_record (ts : List Str) (b : Str) (perf : perfData) (h0 : b ≠ [])
    (h : b ∉ recognisedMarkers) :
    (dispatchLoop (rj true b ts) ⟨[], false, perf⟩).1 = perf := by
  induction ts generalizing b with
  | nil => rfl
  | cons t ts ih =>
    by_cases hs : hasSuffix t colons = true
    · rw [rj_true_marker _ _ _ hs]
      exact dispatchLoop_stray _ _ _ h0 h
    · rw [rj_true_word _ _ _ (by simpa using hs)]
      have e : joinBuf b t = b ++ ' ' :: t := by simp [joinBuf, h0]
      rw [e]
      exact ih _ (by simp) (not_recognised_of_space (by simp))

/-- The records dispatched from the tokens that the rejoiner produces with
its flags raised and an empty buffer, and with its flags lowered, are the
same. -/
theorem rj_true_record (ts : List Str) (perf : perfData) :
    (dispatchLoop (rj true [] ts) ⟨[], false, perf⟩).1 =
      (dispatchLoop (rj false [] ts) ⟨[], false, perf⟩).1 := by
  induction ts with
  | nil => rfl
  | cons t ts ih =>
    by_cases hs : hasSuffix t colons = true
    · rw [rj_true_marker _ _ _ hs, rj_false_cons, dispatchLoop, dispatchStep_init]
    · have hs' : hasSuffix t colons = false := by simpa using hs
      by_cases h0 : t = []
      · subst h0
        rw [rj_true_word _ _ _ hs', rj_false_cons, dispatchLoop, dispatchStep_init]
        exact ih
      · rw [rj_true_word _ _ _ hs', rj_false_cons]
        have e : joinBuf [] t = t := by simp [joinBuf]
        rw [e, rj_true_buf_record ts t perf h0 (not_recognised_of_noSuffix hs'),
          dispatchLoop_stray t _ perf h0 (not_recognised_of_noSuffix hs')]

/-- C7: for every non-empty word `w` without white space that is not a base-10
integer, the line `TIMET::w HOSTNAME::h` parses without error, with the
timestamp left unset and `hostName = h`; and for every rest of line `s`, the
record returned for `TIMET::w s` is the record returned for `s` alone (the
whole result is the same when `w` is not itself one of the five multi-word
markers).  Also after well-formed pairs: when the pieces of a line are those
of well-formed pairs, then `TIMET::w`, then pieces whose first token ends in
`::`, the result is that of the line without the piece `TIMET::w`. -/
theorem getPerfData_timet_lenient (w h s : Str) (hw : isWord w)
    (hint : isDecimalInt w = false) (hh : isWord h) :
    getPerfData ("TIMET::".toList ++ w ++ " HOSTNAME::".toList ++ h) =
      ({ hostName := h }, none) ∧
    (getPerfData ("TIMET::".toList ++ w ++ ' ' :: s)).1 = (getPerfData s).1 ∧
    (w ∉ triggerMarkers → getPerfData ("TIMET::".toList ++ w ++ ' ' :: s) = getPerfData s) ∧
    (∀ (ps : List pair) (tail : List Str) (m : Str) (rest : List Str) (line line' : Str),
      (∀ p ∈ ps, p.valid) → tail.flatMap splitToken = m :: rest → hasSuffix m colons = true →
      fields line = ps.flatMap pair.pieces ++ ("TIMET::".toList ++ w) :: tail →
      fields line' = ps.flatMap pair.pieces ++ tail →
      getPerfData line = getPerfData line') := by
  have hmk : isMarker "TIMET::".toList := recognised_isMarker (by decide)
  have hmk' : isMarker "HOSTNAME::".toList := recognised_isMarker (by decide)
  have hsw := splitToken_marker_word _ w hmk hw
  have hmw := isWord_marker_append hmk hw
  have hatoi := atoi_eq_none w hint
  have hgen : ∀ s', getPerfData ("TIMET::".toList ++ w ++ ' ' :: s') =
      dispatchLoop (rj (decide (w ∈ triggerMarkers)) [] (tokenize s')) {} := by
    intro s'
    unfold getPerfData dispatch
    rw [tokenize_word_space _ _ hmw, hsw, rejoin_eq_rj]
    simp only [List.cons_append, List.nil_append]
    rw [rj_false_cons, decide_eq_false (by decide : "TIMET::".toList ∉ triggerMarkers),
      rj_false_cons]
    exact dispatchLoop_timet_fail w _ {} hatoi
  have hs : ∀ s', getPerfData s' = dispatchLoop (rj false [] (tokenize s')) {} := by
    intro s'
    unfold getPerfData dispatch
    rw [rejoin_eq_rj]
  refine ⟨?_, ?_, ?_, ?_⟩
  · have e : "TIMET::".toList ++ w ++ " HOSTNAME::".toList ++ h =
        "TIMET::".toList ++ w ++ ' ' :: ("HOSTNAME::".toList ++ h) := by simp
    rw [e, hgen, tokenize_word _ (isWord_marker_append hmk' hh),
      splitToken_marker_word _ h hmk' hh]
    cases decide (w ∈ triggerMarkers) <;> rfl
  · rw [hgen, hs]
    cases decide (w ∈ triggerMarkers)
    · rfl
    · exact rj_true_record _ _
  · intro hnt
    rw [hgen, hs, decide_eq_false hnt]
  · intro ps tail m rest line line' hps ht hm hf hf'
    rw [getPerfData_pairs line' ps hps tail m rest hf' ht hm,
      getPerfData_pairs line ps hps _ "TIMET::".toList (w :: m :: rest) hf
        (by rw [List.flatMap_cons, hsw, ht]; rfl) (by decide),
      rj_false_cons, decide_eq_false (by decide : "TIMET::".toList ∉ triggerMarkers),
      rj_false_cons, dispatchLoop_timet_fail w _ _ hatoi]
    cases decide (w ∈ triggerMarkers)
    · rfl
    · rw [rj_true_marker _ _ _ hm, rj_false_cons, dispatchLoop, dispatchStep_init]

/-- C7, at `TIMET::notanumber HOSTNAME::web1`. -/
theorem getPerfData_timet_lenient_witness :
    (isWord "notanumber".toList ∧ isDecimalInt "notanumber".toList = false ∧
      isWord "web1".toList) ∧
    getPerfData "TIMET::notanumber HOSTNAME::web1".toList =
      ({ hostName := "web1".toList }, none) ∧
    (getPerfData "TIMET::notanumber HOSTNAME::web1".toList).1.timeT = none :=
  have h1 : isWord "notanumber".toList := ⟨by decide, by decide⟩
  have h2 : isWord "web1".toList := ⟨by decide, by decide⟩
  have h := (getPerfData_timet_lenient "notanumber".toList "web1".toList [] h1 (by decide) h2).1
  ⟨⟨h1, by decide, h2⟩, h, congrArg (fun r => r.1.timeT) h⟩


theorem splitToken_trigger {m : Str} (hm : m ∈ triggerMarkers) : splitToken m = [m] := by
  simp only [triggerMarkers, List.mem_cons, List.mem_singleton, List.not_mem_nil,
    or_false] at hm
  rcases hm with rfl | rfl | rfl | rfl | rfl <;> decide

/-- C10, refuted as stated: for the two performance-data markers the line
`M HOSTNAME::h` is an error; at `SERVICEPERFDATA:: HOSTNAME::web1` and at
`HOSTPERFDATA:: HOSTNAME::web1`, `getPerfData` returns the metric-entry error
and leaves `hostName` empty. -/
theorem empty_perfdata_value_error :
    getPerfData "SERVICEPERFDATA:: HOSTNAME::web1".toList =
      ({}, some "error parsing perfdata value for token: SERVICEPERFDATA::, ".toList) ∧
    getPerfData "HOSTPERFDATA:: HOSTNAME::web1".toList =
      ({}, some "error parsing perfdata value for token: HOSTPERFDATA::, ".toList) := by
  constructor <;> decide!

/-- C10, amended: for each of the five triggering markers `M` and every
non-empty word `h` without white space, the rejoiner turns the tokens of the
line `M HOSTNAME::h` into `[M, "", "HOSTNAME::", h]`; for `SERVICEDESC::`,
`SERVICECHECKCOMMAND::` and `HOSTCHECKCOMMAND::`, `getPerfData` returns no
error, with `hostName = h` and the field of `M` empty; for `SERVICEPERFDATA::`
and `HOSTPERFDATA::` it returns the metric-entry error naming `M` and the
empty entry, with no field assigned. -/
theorem empty_multiword_value (m h : Str) (hm : m ∈ triggerMarkers) (hh : isWord h) :
    rejoin (tokenize (m ++ " HOSTNAME::".toList ++ h)) = [m, [], "HOSTNAME::".toList, h] ∧
    (m ∈ ["SERVICEDESC::".toList, "SERVICECHECKCOMMAND::".toList, "HOSTCHECKCOMMAND::".toList] →
      getPerfData (m ++ " HOSTNAME::".toList ++ h) = ({ hostName := h }, none)) ∧
    (m ∈ ["SERVICEPERFDATA::".toList, "HOSTPERFDATA::".toList] →
      getPerfData (m ++ " HOSTNAME::".toList ++ h) =
        ({}, some ("error parsing perfdata value for token: ".toList ++ m ++ ", ".toList))) := by
  have hmk := recognised_isMarker (trigger_recognised hm)
  have hmk' : isMarker "HOSTNAME::".toList := recognised_isMarker (by decide)
  have hmw : isWord m := ⟨isMarker_ne_nil hmk, isMarker_noSpace hmk⟩
  have e : m ++ " HOSTNAME::".toList ++ h = m ++ ' ' :: ("HOSTNAME::".toList ++ h) := by simp
  have htok : tokenize (m ++ " HOSTNAME::".toList ++ h) = [m, "HOSTNAME::".toList, h] := by
    rw [e, tokenize_word_space _ _ hmw, splitToken_trigger hm,
      tokenize_word _ (isWord_marker_append hmk' hh), splitToken_marker_word _ h hmk' hh]
    rfl
  have hrj : rejoin (tokenize (m ++ " HOSTNAME::".toList ++ h)) =
      [m, [], "HOSTNAME::".toList, h] := by
    rw [htok, rejoin_eq_rj, rj_false_cons, decide_eq_true hm, rj_true_marker _ _ _ (by decide),
      decide_eq_false (by decide : "HOSTNAME::".toList ∉ triggerMarkers), rj_false_cons, rj]
  refine ⟨hrj, ?_, ?_⟩
  · intro hm'
    unfold getPerfData
    rw [hrj]
    simp only [List.mem_cons, List.mem_singleton, List.not_mem_nil, or_false] at hm'
    rcases hm' with rfl | rfl | rfl <;> rfl
  · intro hm'
    unfold getPerfData
    rw [hrj]
    simp only [List.mem_cons, List.mem_singleton, List.not_mem_nil, or_false] at hm'
    rcases hm' with rfl | rfl <;> rfl

/-- C10 amended, at `SERVICEDESC:: HOSTNAME::web1`. -/
theorem empty_multiword_value_witness :
    ("SERVICEDESC::".toList ∈ triggerMarkers ∧ isWord "web1".toList) ∧
    rejoin (tokenize "SERVICEDESC:: HOSTNAME::web1".toList) =
      ["SERVICEDESC::".toList, [], "HOSTNAME::".toList, "web1".toList] ∧
    getPerfData "SERVICEDESC:: HOSTNAME::web1".toList = ({ hostName := "web1".toList }, none) :=
  have h1 : "SERVICEDESC::".toList ∈ triggerMarkers := by decide
  have h2 : isWord "web1".toList := ⟨by decide, by decide⟩
  have h := empty_multiword_value "SERVICEDESC::".toList "web1".toList h1 h2
  ⟨⟨h1, h2⟩, h.1, h.2.1 (by decide)⟩

theorem hasSuffix_join (b t : Str) (ht : hasSuffix t colons = false) :
    hasSuffix (b ++ ' ' :: t) colons = false := by
  unfold hasSuffix colons at ht ⊢
  have e : (b ++ ' ' :: t).reverse = t.reverse ++ ' ' :: b.reverse := by simp
  rw [e]
  generalize t.reverse = r at ht ⊢
  match r, ht with
  | [], _ => rfl
  | [c], _ =>
    by_cases hc : c = ':'
    · subst hc; rfl
    · simp [List.isPrefixOf, hc]
  | c :: d :: r, ht => simpa [List.isPrefixOf] using ht

theorem hasSuffix_joinBuf (b t : Str) (ht : hasSuffix t colons = false) : hasSuffix (joinBuf b t) colons = false := by
  unfold joinBuf
  by_cases h : b = []
  · rw [if_pos h]; exact ht
  · rw [if_neg h]; exact hasSuffix_join b t ht

theorem rj_idem_aux (ts : List Str) :
    rj false [] (rj false [] ts) = rj false [] ts ∧
    ∀ b, hasSuffix b colons = false → rj true [] (rj true b ts) = rj true b ts := by
  induction ts with
  | nil => exact ⟨rfl, fun _ _ => rfl⟩
  | cons t ts ih =>
    have hd : ∀ d : Bool, rj d [] (rj d [] ts) = rj d [] ts := by
      intro d
      cases d
      · exact ih.1
      · exact ih.2 [] (by decide)
    constructor
    · rw [rj_false_cons, rj_false_cons, hd]
    · intro b hb
      by_cases hs : hasSuffix t colons = true
      · rw [rj_true_marker _ _ _ hs, rj_true_word _ _ _ hb, rj_true_marker _ _ _ hs, hd]
        simp [joinBuf]
      · have hs' : hasSuffix t colons = false := by simpa using hs
        rw [rj_true_word _ _ _ hs']
        exact ih.2 _ (hasSuffix_joinBuf b t hs')

/-- C15: the rejoiner is idempotent: applying the second loop of `getPerfData`
to its own output gives that output again, for every list of tokens. -/
theorem rejoin_idempotent (ts : List Str) : rejoin (rejoin ts) = rejoin ts := by
  rw [rejoin_eq_rj, rejoin_eq_rj]
  exact (rj_idem_aux ts).1

theorem reserved_upper : ∀ r ∈ reserved, ∀ c ∈ r, isUpper c = true := by decide

theorem foldEqRune_underscore (u : caseTables) (c : Char) (hc : isUpper c = true) :
    foldEqRune u c '_' = false := by
  have h1 : c ≠ '_' := by
    intro h; subst h; revert hc; decide
  have h2 : ¬ ('_'.toNat < c.toNat) := by
    simp [isUpper] at hc
    have : '_'.toNat = 95 := rfl
    omega
  have h3 : '_'.toNat < 128 := by decide
  unfold foldEqRune
  rw [if_neg h1]
  simp only [if_neg h2, h3, if_true]
  simp [isUpper] at hc ⊢
  intro _ _
  have : '_'.toNat = 95 := rfl
  omega

theorem equalFold_snoc (u : caseTables) (r x : Str) (c : Char)
    (h : equalFold u r (x ++ [c]) = true) : ∃ r0 d, r = r0 ++ [d] ∧ foldEqRune u d c = true := by
  induction x generalizing r with
  | nil =>
    match r, h with
    | [d], h =>
      simp [equalFold] at h
      exact ⟨[], d, rfl, h⟩
    | d :: e :: r', h => simp [equalFold] at h
  | cons y x ih =>
    match r, h with
    | d :: r', h =>
      simp only [List.cons_append, equalFold, Bool.and_eq_true] at h
      obtain ⟨r0, d', hr, hf⟩ := ih r' h.2
      exact ⟨d :: r0, d', by simp [hr], hf⟩

/-- The text `x_` is not equal, ignoring letter case, to a reserved word. -/
theorem equalFold_reserved_underscore (u : caseTables) (x : Str) :
    ¬ ∃ r ∈ reserved, equalFold u r (x ++ "_".toList) = true := by
  rintro ⟨r, hr, h⟩
  obtain ⟨r0, d, rfl, hf⟩ := equalFold_snoc u r x '_' h
  have hd : isUpper d = true := reserved_upper _ hr d (by simp)
  rw [foldEqRune_underscore u d hd] at hf
  exact absurd hf (by simp)

/-- C18: for every identifier `s`, `fixInfluxReservedIdentifier s` is not
equal, ignoring letter case, to any reserved word, and sanitizing it again
leaves it unchanged. -/
theorem fixInfluxReservedIdentifier_not_reserved (u : caseTables) (s : Str) :
    (¬ ∃ r ∈ reserved, equalFold u r (fixInfluxReservedIdentifier u s) = true) ∧
    fixInfluxReservedIdentifier u (fixInfluxReservedIdentifier u s) =
      fixInfluxReservedIdentifier u s := by
  have h1 : ¬ ∃ r ∈ reserved, equalFold u r (fixInfluxReservedIdentifier u s) = true := by
    unfold fixInfluxReservedIdentifier
    rw [fixLoop_eq]
    by_cases h : ∃ r ∈ reserved, equalFold u r s = true
    · rw [if_pos h]
      exact equalFold_reserved_underscore u _
    · rw [if_neg h]
      exact h
  refine ⟨h1, ?_⟩
  have h2 := fixLoop_eq u (fixInfluxReservedIdentifier u s) reserved
  rw [if_neg h1] at h2
  exact h2

theorem isNameChar_iff (c : Char) : isNameChar c = isIdentChar c := by
  simp [isNameChar, isIdentChar, isLetter]

theorem perfValueMatch_of_parts (name rest : Str) (hn : name ≠ [])
    (hc : ∀ c ∈ name, isIdentChar c = true) (hr : beginsNumber rest = true) :
    perfValueMatch (name ++ '=' :: rest) = some (name, numberPrefix rest) := by
  have hname : ∀ c ∈ name, isNameChar c = true := fun c h => by rw [isNameChar_iff]; exact hc c h
  have hh : ('=' :: rest).head?.all (fun c => !isNameChar c) = true := by simp; decide
  unfold perfValueMatch
  rw [takeWhile_run _ _ hname hh, dropWhile_run _ _ hname hh]
  cases rest with
  | nil => simp [beginsNumber] at hr
  | cons c t =>
    by_cases hm : c = '-'
    · subst hm
      cases t with
      | nil =>
        have h0 : isDigit '-' = false := by decide
        simp [beginsNumber, h0] at hr
      | cons d t' =>
        have h0 : isDigit '-' = false := by decide
        have hd : isDigit d = true := by
          simpa [beginsNumber, h0] using hr
        simp [hn, hd, numberPrefix, isNumChar_of_digit hd]
    · have hd : isDigit c = true := by
        simp [beginsNumber, hm] at hr
        exact hr
      simp [hn, hd, hm, numberPrefix, isNumChar_of_digit hd]

theorem perfValueMatch_parts {e n v : Str} (h : perfValueMatch e = some (n, v)) :
    ∃ rest, e = n ++ '=' :: rest ∧ n ≠ [] ∧ (∀ c ∈ n, isIdentChar c = true) ∧
      beginsNumber rest = true := by
  unfold perfValueMatch at h
  have hs := List.takeWhile_append_dropWhile isNameChar e
  by_cases hn : (e.takeWhile isNameChar).isEmpty = true
  · simp [hn] at h
  · simp only [hn, Bool.false_eq_true, if_false] at h
    split at h
    · rename_i r hd
      rw [hd] at hs
      split at h
      · rename_i d t hr'
        by_cases hdg : isDigit d = true
        · simp only [hdg, if_true, Option.some.injEq, Prod.mk.injEq] at h
          refine ⟨r, ?_, ?_, ?_, ?_⟩
          · rw [← h.1]; exact hs.symm
          · rw [← h.1]; simpa using hn
          · intro c hc
            rw [← h.1] at hc
            rw [← isNameChar_iff]
            exact List.mem_takeWhile_imp hc
          · by_cases hm : r.head? = some '-'
            · simp only [hm, beq_self_eq_true, if_true] at hr'
              simp [beginsNumber, hm, hr', hdg]
            · have : (r.head? == some '-') = false := by simpa using hm
              simp only [this, Bool.false_eq_true, if_false] at hr'
              simp [beginsNumber, hr', hdg]
        · simp [hdg] at h
      · simp at h
    · simp at h

theorem parsePerfValues_single_ok (token e n v : Str) (he : ' ' ∉ e)
    (h : perfValueMatch e = some (n, v)) : parsePerfValues token e = ([⟨n, v⟩], none) := by
  unfold parsePerfValues
  rw [splitSpace_word e he, parsePerfValuesLoop, h]
  rfl

theorem parsePerfValues_single_fail (token e : Str) (he : ' ' ∉ e)
    (h : perfValueMatch e = none) :
    parsePerfValues token e = ([], some (perfValueError token e)) := by
  unfold parsePerfValues
  rw [splitSpace_word e he, parsePerfValuesLoop, h]
  rfl

theorem beginsNumber_append (rest suffix : Str) (h : beginsNumber rest = true) :
    beginsNumber (rest ++ suffix) = true := by
  cases rest with
  | nil => simp [beginsNumber] at h
  | cons c t =>
    cases t with
    | nil =>
      have h0 : isDigit '-' = false := by decide
      by_cases hm : c = '-'
      · subst hm; simp [beginsNumber, h0] at h
      · simp [beginsNumber, hm] at h
        simp [beginsNumber, h]
    | cons d t' => simpa [beginsNumber] using h

/-- C17: `parsePerfValues` checks only a prefix of each entry.  An entry `e`
without a space is accepted if and only if `e = name ++ "=" ++ rest` with
`name` a non-empty string of letters, digits, `-` and `_`, and `rest`
beginning with a digit or with `-` followed by a digit; the result is then the
single pair of that name and of the optional `-` followed by the longest run of
digits and dots; and an accepted entry stays accepted when a suffix without a
space is appended. -/
theorem parsePerfValues_prefixCheck (token e : Str) (he : ' ' ∉ e) :
    ((parsePerfValues token e).2 = none ↔
      ∃ name rest, e = name ++ '=' :: rest ∧ name ≠ [] ∧
        (∀ c ∈ name, isIdentChar c = true) ∧ beginsNumber rest = true) ∧
    (∀ name rest, e = name ++ '=' :: rest → name ≠ [] →
      (∀ c ∈ name, isIdentChar c = true) → beginsNumber rest = true →
      parsePerfValues token e = ([⟨name, numberPrefix rest⟩], none)) ∧
    (∀ suffix, ' ' ∉ suffix → (parsePerfValues token e).2 = none →
      (parsePerfValues token (e ++ suffix)).2 = none) := by
  have hiff : (parsePerfValues token e).2 = none ↔
      ∃ name rest, e = name ++ '=' :: rest ∧ name ≠ [] ∧
        (∀ c ∈ name, isIdentChar c = true) ∧ beginsNumber rest = true := by
    constructor
    · intro h
      cases hm : perfValueMatch e with
      | none =>
        rw [parsePerfValues_single_fail token e he hm] at h
        exact absurd h (by simp)
      | some m =>
        obtain ⟨n, v⟩ := m
        obtain ⟨rest, h1, h2, h3, h4⟩ := perfValueMatch_parts hm
        exact ⟨n, rest, h1, h2, h3, h4⟩
    · rintro ⟨name, rest, rfl, h2, h3, h4⟩
      rw [parsePerfValues_single_ok token _ _ _ he (perfValueMatch_of_parts name rest h2 h3 h4)]
  refine ⟨hiff, ?_, ?_⟩
  · rintro name rest rfl h2 h3 h4
    exact parsePerfValues_single_ok token _ _ _ he (perfValueMatch_of_parts name rest h2 h3 h4)
  · intro suffix hsuf h
    obtain ⟨name, rest, rfl, h2, h3, h4⟩ := hiff.1 h
    have hes : ' ' ∉ name ++ '=' :: rest ++ suffix := by
      intro hmem
      rcases List.mem_append.1 hmem with h' | h'
      · exact he h'
      · exact hsuf h'
    have e1 : name ++ '=' :: rest ++ suffix = name ++ '=' :: (rest ++ suffix) := by simp
    have := perfValueMatch_of_parts name (rest ++ suffix) h2 h3 (beginsNumber_append _ _ h4)
    rw [← e1] at this
    rw [parsePerfValues_single_ok token _ _ _ hes this]

/-- C17, at `used=10!!x=3`, accepted as `("used", "10")`. -/
theorem parsePerfValues_prefixCheck_witness :
    ' ' ∉ "used=10!!x=3".toList ∧
    parsePerfValues "SERVICEPERFDATA::".toList "used=10!!x=3".toList =
      ([⟨"used".toList, "10".toList⟩], none) :=
  have h : ' ' ∉ "used=10!!x=3".toList := by decide
  ⟨h, (parsePerfValues_prefixCheck "SERVICEPERFDATA::".toList "used=10!!x=3".toList h).2.1
    "used".toList "10!!x=3".toList rfl (by decide) (by decide) (by decide)⟩

theorem isDottedNumber_numberPrefix (rest : Str) (h : beginsNumber rest = true) :
    isDottedNumber (numberPrefix rest) = true := by
  have hall : ∀ l : Str, (l.takeWhile isNumChar).all isNumChar = true := by
    intro l
    rw [List.all_eq_true]
    intro c hc
    exact List.mem_takeWhile_imp hc
  have h0 : isDigit '-' = false := by decide
  cases rest with
  | nil => simp [beginsNumber] at h
  | cons c t =>
    by_cases hm : c = '-'
    · subst hm
      cases t with
      | nil => simp [beginsNumber, h0] at h
      | cons d t' =>
        have hd : isDigit d = true := by simpa [beginsNumber, h0] using h
        have := hall t'
        simp [numberPrefix, isDottedNumber, isNumChar_of_digit hd, hd] at this ⊢
    · have hd : isDigit c = true := by simpa [beginsNumber, hm] using h
      have := hall t
      simp [numberPrefix, isDottedNumber, isNumChar_of_digit hd, hd, hm] at this ⊢

theorem perfValueMatch_dotted {e n v : Str} (h : perfValueMatch e = some (n, v)) :
    isDottedNumber v = true := by
  obtain ⟨rest, rfl, h2, h3, h4⟩ := perfValueMatch_parts h
  rw [perfValueMatch_of_parts n rest h2 h3 h4] at h
  simp only [Option.some.injEq, Prod.mk.injEq, true_and] at h
  rw [← h]
  exact isDottedNumber_numberPrefix rest h4

theorem parsePerfValuesLoop_dotted (token : Str) (vs : List Str) (r : List perfDataValue)
    (hr : ∀ x ∈ r, isDottedNumber x.value = true) :
    ∀ x ∈ (parsePerfValuesLoop token vs r).1, isDottedNumber x.value = true := by
  induction vs generalizing r with
  | nil => simpa [parsePerfValuesLoop] using hr
  | cons v vs ih =>
    rw [parsePerfValuesLoop]
    cases hm : perfValueMatch v with
    | none => simp
    | some m =>
      obtain ⟨n, x⟩ := m
      simp only
      apply ih
      intro y hy
      rcases List.mem_append.1 hy with h | h
      · exact hr y h
      · simp only [List.mem_singleton] at h
        subst h
        exact perfValueMatch_dotted hm

/-- C13, refuted as stated: `load=1.2.3` is accepted and the returned value
`1.2.3` has two dots; it is not a signed decimal number. -/
theorem parsePerfValues_two_dots :
    parsePerfValues "SERVICEPERFDATA::".toList "load=1.2.3".toList =
      ([⟨"load".toList, "1.2.3".toList⟩], none) ∧
    isSignedDecimal "1.2.3".toList = false ∧ "1.2.3".toList.count '.' = 2 := by
  decide

/-- C13, amended: every value string returned by `parsePerfValues` is an
optional leading `-`, a digit, and then digits and dots only. -/
theorem parsePerfValues_values_dotted (token rawValue : Str) (x : perfDataValue)
    (hx : x ∈ (parsePerfValues token rawValue).1) : isDottedNumber x.value = true :=
  parsePerfValuesLoop_dotted token (splitSpace rawValue) [] (by simp) x hx

/-- C13 amended, at `load=1.2.3 t=-4.`. -/
theorem parsePerfValues_values_dotted_witness :
    (⟨"t".toList, "-4.".toList⟩ : perfDataValue) ∈
      (parsePerfValues "SERVICEPERFDATA::".toList "load=1.2.3 t=-4.".toList).1 ∧
    isDottedNumber "-4.".toList = true :=
  have h : (⟨"t".toList, "-4.".toList⟩ : perfDataValue) ∈
      (parsePerfValues "SERVICEPERFDATA::".toList "load=1.2.3 t=-4.".toList).1 := by decide
  ⟨h, parsePerfValues_values_dotted _ _ _ h⟩

theorem applyPair_perfdata (perf : perfData) (p : pair) (hm : p.marker ∈ perfMarkers)
    (hok : (parsePerfValues p.marker p.value).2 = none) :
    applyPair perf p =
      { perf with perfDataValues := (parsePerfValues p.marker p.value).1 } := by
  unfold applyPair
  cases hpp : parsePerfValues p.marker p.value with
  | mk vals err =>
    rw [hpp] at hok
    simp only at hok
    subst hok
    simp only [perfMarkers, List.mem_cons, List.mem_singleton, List.not_mem_nil, or_false] at hm
    rcases hm with h | h <;> rw [h] at hpp ⊢ <;>
      (simp [dispatchSwitch]; simp at hpp; rw [hpp])

theorem perfdata_pair_valid (m w : Str) (ws : List Str) (hm : m ∈ perfMarkers)
    (hp : ∀ x ∈ w :: ws, plainWord x) (hok : (parsePerfValues m (spaceJoin (w :: ws))).2 = none) :
    (⟨m, w, ws⟩ : pair).valid := by
  refine ⟨hp w (by simp), fun x hx => hp x (List.mem_cons_of_mem _ hx), Or.inr (Or.inr (Or.inr
    ⟨hm, ?_⟩))⟩
  intro x hx hnone
  unfold parsePerfValues at hok
  rw [splitSpace_spaceJoin w ws (fun y hy => word_no_space (hp y hy).1)] at hok
  rcases parsePerfValuesLoop_cases m (w :: ws) [] with ⟨h1, _⟩ | ⟨pre, v, post, _, _, _, h4⟩
  · exact h1 x hx hnone
  · rw [h4] at hok
    exact absurd hok (by simp)

/-- C16, refuted as stated: `a=1` and `b=2::` are both accepted by
`parsePerfValues`, and `SERVICEPERFDATA::a=1 SERVICEPERFDATA::b=2:: HOSTNAME::web1`
returns an error, with the entry of the first list kept and `hostName` empty. -/
theorem perfdata_last_not_parsed :
    (parsePerfValues "SERVICEPERFDATA::".toList "a=1".toList).2 = none ∧
    parsePerfValues "SERVICEPERFDATA::".toList "b=2::".toList =
      ([⟨"b".toList, "2".toList⟩], none) ∧
    getPerfData "SERVICEPERFDATA::a=1 SERVICEPERFDATA::b=2:: HOSTNAME::web1".toList =
      ({ perfDataValues := [⟨"a".toList, "1".toList⟩] },
        some "error parsing perfdata value for token: SERVICEPERFDATA::, ".toList) := by
  decide!

/-- C16, amended: for every two metric lists `L1` and `L2` made of plain words
and accepted by `parsePerfValues`, every two performance-data markers `M1` and
`M2` and every non-empty word `h` without white space, the line
`M1L1 M2L2 HOSTNAME::h` parses without error, with `perfDataValues` equal to
the parse of `L2` alone and `hostName = h`. -/
theorem perfdata_last_wins (m1 m2 w1 : Str) (ws1 : List Str) (w2 : Str) (ws2 : List Str)
    (h : Str) (hm1 : m1 ∈ perfMarkers) (hm2 : m2 ∈ perfMarkers)
    (hp1 : ∀ x ∈ w1 :: ws1, plainWord x) (hp2 : ∀ x ∈ w2 :: ws2, plainWord x)
    (hok1 : (parsePerfValues m1 (spaceJoin (w1 :: ws1))).2 = none)
    (hok2 : (parsePerfValues m2 (spaceJoin (w2 :: ws2))).2 = none) (hh : isWord h) :
    getPerfData (m1 ++ spaceJoin (w1 :: ws1) ++ " ".toList ++ m2 ++ spaceJoin (w2 :: ws2) ++
        " HOSTNAME::".toList ++ h) =
      ({ perfDataValues := (parsePerfValues m2 (spaceJoin (w2 :: ws2))).1, hostName := h },
        none) := by
  have hv1 := perfdata_pair_valid m1 w1 ws1 hm1 hp1 hok1
  have hv2 := perfdata_pair_valid m2 w2 ws2 hm2 hp2 hok2
  have hps : ∀ q ∈ [(⟨m1, w1, ws1⟩ : pair), ⟨m2, w2, ws2⟩], q.valid := by
    intro q hq
    simp only [List.mem_cons, List.mem_singleton, List.not_mem_nil, or_false] at hq
    rcases hq with rfl | rfl
    · exact hv1
    · exact hv2
  have hmk : isMarker "HOSTNAME::".toList := recognised_isMarker (by decide)
  have hline : m1 ++ spaceJoin (w1 :: ws1) ++ " ".toList ++ m2 ++ spaceJoin (w2 :: ws2) ++
      " HOSTNAME::".toList ++ h =
      spaceJoin ([(⟨m1, w1, ws1⟩ : pair), ⟨m2, w2, ws2⟩].flatMap pair.pieces ++
        ["HOSTNAME::".toList ++ h]) := by
    simp [spaceJoin, pair.pieces]
  have hf : fields (spaceJoin ([(⟨m1, w1, ws1⟩ : pair), ⟨m2, w2, ws2⟩].flatMap pair.pieces ++
      ["HOSTNAME::".toList ++ h])) =
      [(⟨m1, w1, ws1⟩ : pair), ⟨m2, w2, ws2⟩].flatMap pair.pieces ++
        ["HOSTNAME::".toList ++ h] := by
    apply fields_spaceJoin
    intro x hx
    rcases List.mem_append.1 hx with hx | hx
    · obtain ⟨q, hq, hxq⟩ := List.mem_flatMap.1 hx
      exact pair_pieces_words (hps q hq) x hxq
    · simp only [List.mem_singleton] at hx
      subst hx
      exact isWord_marker_append hmk hh
  rw [hline, getPerfData_pairs _ _ hps ["HOSTNAME::".toList ++ h] "HOSTNAME::".toList [h] hf
    (by rw [List.flatMap_cons, splitToken_marker_word _ h hmk hh]; rfl) (by decide)]
  rw [rj_false_cons, decide_eq_false (by decide : "HOSTNAME::".toList ∉ triggerMarkers),
    rj_false_cons, rj]
  simp only [List.foldl_cons, List.foldl_nil]
  rw [applyPair_perfdata _ ⟨m2, w2, ws2⟩ hm2 hok2, applyPair_perfdata _ ⟨m1, w1, ws1⟩ hm1 hok1]
  rfl

/-- C16 amended, at `SERVICEPERFDATA::a=1 b=2 HOSTPERFDATA::c=3 HOSTNAME::web1`. -/
theorem perfdata_last_wins_witness :
    ("SERVICEPERFDATA::".toList ∈ perfMarkers ∧ "HOSTPERFDATA::".toList ∈ perfMarkers ∧
      (∀ x ∈ ["a=1".toList, "b=2".toList], plainWord x) ∧
      (∀ x ∈ ["c=3".toList], plainWord x) ∧
      (parsePerfValues "SERVICEPERFDATA::".toList "a=1 b=2".toList).2 = none ∧
      (parsePerfValues "HOSTPERFDATA::".toList "c=3".toList).2 = none ∧
      isWord "web1".toList) ∧
    getPerfData "SERVICEPERFDATA::a=1 b=2 HOSTPERFDATA::c=3 HOSTNAME::web1".toList =
      ({ perfDataValues := [⟨"c".toList, "3".toList⟩], hostName := "web1".toList }, none) :=
  have h1 : ∀ x ∈ ["a=1".toList, "b=2".toList], plainWord x := by
    intro x hx
    simp only [List.mem_cons, List.mem_singleton, List.not_mem_nil, or_false] at hx
    rcases hx with rfl | rfl <;>
      exact plainWord_of_checks _ (by decide) (by decide) (by decide) (by decide)
  have h2 : ∀ x ∈ ["c=3".toList], plainWord x := by
    intro x hx
    simp only [List.mem_cons, List.mem_singleton, List.not_mem_nil, or_false] at hx
    subst hx
    exact plainWord_of_checks _ (by decide) (by decide) (by decide) (by decide)
  have h3 : isWord "web1".toList := ⟨by decide, by decide⟩
  ⟨⟨by decide, by decide, h1, h2, by decide, by decide, h3⟩,
    perfdata_last_wins "SERVICEPERFDATA::".toList "HOSTPERFDATA::".toList "a=1".toList
      ["b=2".toList] "c=3".toList [] "web1".toList (by decide) (by decide) h1 h2 (by decide)
      (by decide) h3⟩

/-- C11, as the code behaves: when a line of well-formed pairs ends with a
multi-word field `Mw₁ … wₙ` (`M` one of the five multi-word markers, the words
plain), that field does not reach the record: `getPerfData` returns, without
error, the record of the pairs before it. -/
theorem trailing_multiword_dropped (ps : List pair) (hps : ∀ p ∈ ps, p.valid) (m w : Str)
    (ws : List Str) (hm : m ∈ triggerMarkers) (hw : ∀ x ∈ w :: ws, plainWord x) :
    getPerfData (spaceJoin (ps.flatMap pair.pieces ++ (m ++ w) :: ws)) =
      (ps.foldl applyPair {}, none) := by
  have hmk := recognised_isMarker (trigger_recognised hm)
  have hs := isMarker_hasSuffix hmk
  have hw1 := (hw w (by simp)).1
  have hf : fields (spaceJoin (ps.flatMap pair.pieces ++ (m ++ w) :: ws)) =
      ps.flatMap pair.pieces ++ (m ++ w) :: ws := by
    apply fields_spaceJoin
    intro x hx
    rcases List.mem_append.1 hx with h | h
    · obtain ⟨p, hp, hxp⟩ := List.mem_flatMap.1 h
      exact pair_pieces_words (hps p hp) x hxp
    · rcases List.mem_cons.1 h with rfl | h
      · exact isWord_marker_append hmk hw1
      · exact (hw x (List.mem_cons_of_mem _ h)).1
  have hws : ws.flatMap splitToken = ws := by
    have : ∀ l : List Str, (∀ x ∈ l, plainWord x) → l.flatMap splitToken = l := by
      intro l
      induction l with
      | nil => intro _; rfl
      | cons a l ih =>
        intro h
        rw [List.flatMap_cons, splitToken_plain a (h a (by simp)),
          ih (fun x hx => h x (List.mem_cons_of_mem _ hx))]
        rfl
    exact this ws (fun x hx => hw x (List.mem_cons_of_mem _ hx))
  rw [getPerfData_pairs _ ps hps ((m ++ w) :: ws) m (w :: ws) hf
    (by rw [List.flatMap_cons, splitToken_marker_word _ _ hmk hw1, hws]; rfl) hs]
  rw [rj_false_cons, decide_eq_true hm,
    rj_true_end (w :: ws) [] (fun x hx => (hw x hx).2.1)]
  rfl

/-- C11, at `HOSTNAME::web1 SERVICECHECKCOMMAND::check_disk -w 5`:
`serviceCheckCommand` stays empty. -/
theorem trailing_multiword_dropped_witness :
    ((∀ p ∈ [hostNamePair], p.valid) ∧ "SERVICECHECKCOMMAND::".toList ∈ triggerMarkers ∧
      ∀ x ∈ ["check_disk".toList, "-w".toList, "5".toList], plainWord x) ∧
    getPerfData "HOSTNAME::web1 SERVICECHECKCOMMAND::check_disk -w 5".toList =
      ({ hostName := "web1".toList }, none) ∧
    (getPerfData "HOSTNAME::web1 SERVICECHECKCOMMAND::check_disk -w 5".toList).1.serviceCheckCommand
      = [] :=
  have h1 : ∀ p ∈ [hostNamePair], p.valid := by simpa using hostNamePair_valid
  have h2 : ∀ x ∈ ["check_disk".toList, "-w".toList, "5".toList], plainWord x := by
    intro x hx
    simp only [List.mem_cons, List.mem_singleton, List.not_mem_nil, or_false] at hx
    rcases hx with rfl | rfl | rfl <;>
      exact plainWord_of_checks _ (by decide) (by decide) (by decide) (by decide)
  have h := trailing_multiword_dropped [hostNamePair] h1 "SERVICECHECKCOMMAND::".toList
    "check_disk".toList ["-w".toList, "5".toList] (by decide) h2
  ⟨⟨h1, by decide, h2⟩, h, congrArg (fun r => r.1.serviceCheckCommand) h⟩

theorem splitToken_cases (t : Str) :
    splitToken t = [t] ∨
      ∃ pre a b post, t = pre ++ a ++ b ++ post ∧ splitToken t = [a, b] ∧ isMarker a ∧ b ≠ [] := by
  unfold splitToken
  cases h : fieldNameMatch t with
  | none => exact Or.inl rfl
  | some m =>
    obtain ⟨a, b⟩ := m
    obtain ⟨h1, h2, pre, post, h3⟩ := fieldNameMatch_sound h
    exact Or.inr ⟨pre, a, b, post, h3, rfl, h1, h2⟩

/-- C12, as the code behaves: the token `xHOSTNAME::y` is split into
`HOSTNAME::` and `y`, and the leading `x` is lost; in general a token is either
emitted unchanged or split into a marker `a` and a non-empty `b` that stand
somewhere inside it. -/
theorem splitToken_loses_characters :
    splitToken "xHOSTNAME::y".toList = ["HOSTNAME::".toList, "y".toList] ∧
    "HOSTNAME::".toList ++ "y".toList ≠ "xHOSTNAME::y".toList ∧
    tokenize "xHOSTNAME::y".toList = ["HOSTNAME::".toList, "y".toList] ∧
    (getPerfData "xHOSTNAME::y".toList).1.hostName = "y".toList ∧
    ∀ t : Str, splitToken t = [t] ∨
      ∃ pre a b post, t = pre ++ a ++ b ++ post ∧ splitToken t = [a, b] ∧ isMarker a ∧ b ≠ [] :=
  ⟨by decide, by decide, by decide, by decide!, splitToken_cases⟩

/-- C14, as the code behaves: in `SERVICESTATETYPE::1 TIMET::1617000000` the
`TIMET::` case overwrites `serviceType` with the timestamp; with the two pairs
in the other order `serviceType` is `1`. -/
theorem serviceType_overwritten_by_timet :
    getPerfData "SERVICESTATETYPE::1 TIMET::1617000000".toList =
      ({ serviceType := 1617000000, timeT := some 1617000000 }, none) ∧
    getPerfData "TIMET::1617000000 SERVICESTATETYPE::1".toList =
      ({ serviceType := 1, timeT := some 1617000000 }, none) := by
  constructor <;> decide!

end Perf2db
